import Mathlib

/-!
Verification of the STL parsing engine (package stl, file stl.go).

The Go source is shallowly embedded: byte buffers are `List Nat` (one Nat
per byte, values < 256 in practice), 32-bit floats are represented by the
`F32` type (bit pattern for the binary path, source literal text for the
ASCII path; no claim relates the two numerically), and Go's fallible
operations return `Except`/`Option`.  Go slice expressions are modelled
over a buffer whose capacity equals its length, so an out-of-range slice
or index is a runtime fault, modelled as `Except.error ()`.
-/

set_option maxRecDepth 4000

namespace Stl

/-- Bytes of a string literal (all inputs in this development are ASCII). -/
def strBytes (s : String) : List Nat := s.data.map (fun c => c.toNat)

/-- A 32-bit float value.  The binary reader produces values from 4-byte
little-endian bit patterns (`ofBits`); the ASCII reader produces values by
`strconv.ParseFloat` on a captured literal (`ofText` keeps the literal's
bytes; the numeric interpretation is irrelevant to every claim).  Go's
zero value `float32(0)` has bit pattern 0, i.e. `ofBits 0`. -/
inductive F32 where
  | ofBits (w : Nat)
  | ofText (s : List Nat)
deriving DecidableEq, Repr

/-- Vertex represents a point in 3d space (Go struct Vertex, fields X Y Z). -/
structure Vertex where
  x : F32
  y : F32
  z : F32
deriving DecidableEq, Repr

/-- The zero value of Vertex (three float32 zeros, bit pattern 0). -/
def vertexZero : Vertex := ⟨.ofBits 0, .ofBits 0, .ofBits 0⟩

/-- Facet represents a triangle from the STL file (Go struct Facet).
Go's `Vertices [3]Vertex` array is modelled as the three fields
`v0 v1 v2`; `Valid` is the completion flag; `Normal` the normal vector. -/
structure Facet where
  v0 : Vertex
  v1 : Vertex
  v2 : Vertex
  valid : Bool
  normal : Vertex
deriving DecidableEq, Repr

/-- Structured content of the lexer's `errorf` messages.  Go formats these
with `fmt.Sprintf`; each constructor carries exactly the data interpolated
into the format string: the expected keyword, the current byte offset
`l.pos`, and the offending bytes actually found (the `%q` argument). -/
inductive LexMsg where
  | expectedKeyword (kw : List Nat) (pos : Int) (saw : List Nat)
  | expectedNumber (pos : Int) (saw : List Nat)
  | badFloat (text : List Nat)
deriving DecidableEq, Repr

/-- Error values returned by the package:
`tooSmall` = "STL file too small (<5 bytes)",
`binHeader` = "Incomplete header on binary STL file.",
`binNoData` = "Binary STL file contains no data.",
`binEOF` = the io.EOF / io.ErrUnexpectedEOF surfaced by `binary.Read`
when the buffer is exhausted mid-record (collapsed into one value),
`lexError` = LexerError wrapping a lexer message. -/
inductive StlError where
  | tooSmall
  | binHeader
  | binNoData
  | binEOF
  | lexError (m : LexMsg)
deriving DecidableEq, Repr

/-- Outcome of a call that can also crash (Go runtime panic: out-of-range
slice index or nil dereference). -/
inductive PRes where
  | panic
  | err (e : StlError)
  | ok (fs : List Facet)
deriving DecidableEq, Repr

/-! ### Binary Facet Reader (Go `parseBinary`) -/

/-- One `binary.Read(triangles, binary.LittleEndian, &f32)`: consume 4
bytes, little-endian; `none` models the io.EOF / io.ErrUnexpectedEOF error
when fewer than 4 bytes remain. -/
def readF32 : List Nat → Option (Nat × List Nat)
  | b0 :: b1 :: b2 :: b3 :: rest =>
      some (b0 + 256 * b1 + 65536 * b2 + 16777216 * b3, rest)
  | _ => none

/-- One `binary.Read` of a uint16 (the discarded attribute field). -/
def readU16 : List Nat → Option (Nat × List Nat)
  | b0 :: b1 :: rest => some (b0 + 256 * b1, rest)
  | _ => none

/-- Read three little-endian float32 words as one vertex
(the inner `for k` loop filling `ps` then `vs[j] = Vertex{ps[0],ps[1],ps[2]}`). -/
def readVertex (bs : List Nat) : Option (Vertex × List Nat) :=
  match readF32 bs with
  | none => none
  | some (x, bs1) =>
    match readF32 bs1 with
    | none => none
    | some (y, bs2) =>
      match readF32 bs2 with
      | none => none
      | some (z, bs3) => some (⟨.ofBits x, .ofBits y, .ofBits z⟩, bs3)

/-- The per-record loop of Go `parseBinary`.  `ps` is the scratch array
`var ps [3]float32`, declared outside the loop, holding the previous
iteration's third vertex (zero before the first iteration).  Faithful to
the source defect: the three freshly read normal words (`t`) are
discarded and `normal = Vertex{ps[0], ps[1], ps[2]}` takes the stale
scratch value instead. -/
def parseBinaryLoop : Nat → List Nat → Vertex → Except StlError (List Facet)
  | 0, _, _ => .ok []
  | n + 1, bs, ps =>
    match readF32 bs with
    | none => .error .binEOF
    | some (_, bs1) =>
      match readF32 bs1 with
      | none => .error .binEOF
      | some (_, bs2) =>
        match readF32 bs2 with
        | none => .error .binEOF
        | some (_, bs3) =>
          -- normal = Vertex{X: ps[0], Y: ps[1], Z: ps[2]} (stale scratch)
          let normal : Vertex := ps
          match readVertex bs3 with
          | none => .error .binEOF
          | some (v0, bs4) =>
            match readVertex bs4 with
            | none => .error .binEOF
            | some (v1, bs5) =>
              match readVertex bs5 with
              | none => .error .binEOF
              | some (v2, bs6) =>
                match readU16 bs6 with
                | none => .error .binEOF
                | some (_, bs7) =>
                  match parseBinaryLoop n bs7 v2 with
                  | .error e => .error e
                  | .ok rest =>
                    .ok ({ v0 := v0, v1 := v1, v2 := v2,
                           valid := true, normal := normal } :: rest)

/-- Go `parseBinary`: skip the 80-byte header, read the little-endian
uint32 triangle count from the next 4 bytes, then decode that many
50-byte records. -/
def parseBinary (stl : List Nat) : Except StlError (List Facet) :=
  if stl.length < 80 then .error .binHeader
  else
    let rest := stl.drop 80
    if rest.length < 4 then .error .binNoData
    else
      match readF32 rest with
      | some (numTriangles, triangles) =>
          parseBinaryLoop numTriangles triangles vertexZero
      | none => .error .binNoData   -- unreachable: rest has at least 4 bytes

/-! ### Encoded binary records (for stating the well-formed-input claims) -/

/-- 4-byte little-endian encoding of a 32-bit word. -/
def enc4 (w : Nat) : List Nat :=
  [w % 256, w / 256 % 256, w / 65536 % 256, w / 16777216 % 256]

/-- 2-byte little-endian encoding of the attribute field. -/
def enc2 (w : Nat) : List Nat := [w % 256, w / 256 % 256]

/-- One 50-byte binary triangle record, given by its twelve 32-bit float
words (normal, then three vertices) and the 16-bit attribute. -/
structure BRec where
  nx : Nat
  ny : Nat
  nz : Nat
  x1 : Nat
  y1 : Nat
  z1 : Nat
  x2 : Nat
  y2 : Nat
  z2 : Nat
  x3 : Nat
  y3 : Nat
  z3 : Nat
  attr : Nat
deriving DecidableEq, Repr

/-- All twelve float words fit in 32 bits. -/
def recOk (r : BRec) : Prop :=
  r.nx < 4294967296 ∧ r.ny < 4294967296 ∧ r.nz < 4294967296 ∧
  r.x1 < 4294967296 ∧ r.y1 < 4294967296 ∧ r.z1 < 4294967296 ∧
  r.x2 < 4294967296 ∧ r.y2 < 4294967296 ∧ r.z2 < 4294967296 ∧
  r.x3 < 4294967296 ∧ r.y3 < 4294967296 ∧ r.z3 < 4294967296

instance (r : BRec) : Decidable (recOk r) := by
  unfold recOk; infer_instance

/-- The 50 bytes of a record, in the fixed layout: bytes 0-11 normal,
12-47 three vertices, 48-49 attribute, all little-endian. -/
def encRecord (r : BRec) : List Nat :=
  enc4 r.nx ++ (enc4 r.ny ++ (enc4 r.nz ++
    (enc4 r.x1 ++ (enc4 r.y1 ++ (enc4 r.z1 ++
    (enc4 r.x2 ++ (enc4 r.y2 ++ (enc4 r.z2 ++
    (enc4 r.x3 ++ (enc4 r.y3 ++ (enc4 r.z3 ++ enc2 r.attr)))))))))))

/-- Concatenation of the encoded records. -/
def concatAll : List (List Nat) → List Nat
  | [] => []
  | l :: rest => l ++ concatAll rest

/-- The third vertex of a record. -/
def recV3 (r : BRec) : Vertex := ⟨.ofBits r.x3, .ofBits r.y3, .ofBits r.z3⟩

/-- The facets the binary reader actually produces for a record list, as
the (amended) specification describes them: facets in record order, each
valid, vertices taken from the record's bytes 12-47, and the Normal taken
from the stale scratch value `ps` — the previous record's third vertex,
or the zero vector for the first record. -/
def bSpecFacets (ps : Vertex) : List BRec → List Facet
  | [] => []
  | r :: rest =>
      { v0 := ⟨.ofBits r.x1, .ofBits r.y1, .ofBits r.z1⟩,
        v1 := ⟨.ofBits r.x2, .ofBits r.y2, .ofBits r.z2⟩,
        v2 := recV3 r,
        valid := true,
        normal := ps } :: bSpecFacets (recV3 r) rest

/-- The normals of a facet list form the stale chain starting at `ps`:
the first facet's normal is `ps` and each later facet's normal is the
previous facet's third vertex. -/
def normalsChained (ps : Vertex) : List Facet → Prop
  | [] => True
  | f :: rest => f.normal = ps ∧ normalsChained f.v2 rest

/-! ### ASCII Lexer (Go `lexer`, `asciiFileHeader`, `asciiFacet`, `asciiVertex`) -/

/-- Go `const ident`: identifier characters. -/
def ident : List Nat :=
  strBytes ("ABCDEFGHIJKLMNOPQRSTUVWXYZabcdefghijklmnopqrstuvwxyz_0123456789.")

/-- Go `const spaces`. -/
def spaces : List Nat := strBytes (" \n\t\r")

/-- Go `const floatDigits`. -/
def floatDigits : List Nat := strBytes ("0123456789.")

/-- The sign characters accepted by `acceptNumber` (`l.accept("+-")`). -/
def plusMinus : List Nat := strBytes ("+-")

/-- The exponent markers accepted by `acceptNumber` (`l.accept("eE")`). -/
def expMarks : List Nat := strBytes ("eE")

def kwSolid : List Nat := strBytes ("solid")
def kwFacet : List Nat := strBytes ("facet")
def kwNormal : List Nat := strBytes ("normal")
def kwOuter : List Nat := strBytes ("outer")
def kwLoop : List Nat := strBytes ("loop")
def kwVertex : List Nat := strBytes ("vertex")
def kwEndloop : List Nat := strBytes ("endloop")
def kwEndfacet : List Nat := strBytes ("endfacet")
def kwEndsolid : List Nat := strBytes ("endsolid")

/-- The mutable part of Go's `lexer` struct (the `name` field and the
facet channel are dropped: the first is never read, the second is the
producer/consumer buffering that §5 of the documentation declares
unobservable — `runLex` below collects the emitted facets in order).
`pos` and `start` are `Int` because `backup()` decrements `pos`
unconditionally and can drive it to -1 at end of input. -/
structure LexCtx where
  input : List Nat
  start : Int
  pos : Int
  meshName : List Nat
  err : Option LexMsg
  pending : Option Facet
deriving DecidableEq, Repr

/-- Record a fatal lexer error (`l.errorf`); the caller then returns the
nil state. -/
def setErr (c : LexCtx) (m : LexMsg) : LexCtx := { c with err := some m }

/-- Go slice expression `input[low:high]` over a buffer whose capacity is
its length: out of range (`low < 0`, `low > high`, or `high > len`) is a
runtime panic, modelled as `.error ()`. -/
def sliceB (input : List Nat) (low high : Int) : Except Unit (List Nat) :=
  if 0 ≤ low ∧ low ≤ high ∧ high ≤ (input.length : Int) then
    .ok ((input.drop low.toNat).take (high - low).toNat)
  else .error ()

/-- Go `l.accept(valid)`: `next()` then, if the rune is not in `valid`,
`backup()`.  At end of input `next()` returns -1 without advancing, the
rune is not found, and `backup()` still decrements `pos`.  `next()` with
a negative `pos` (possible only on empty input) indexes out of range. -/
def accept (valid : List Nat) (c : LexCtx) : Except Unit (LexCtx × Bool) :=
  if c.pos ≥ (c.input.length : Int) then
    .ok ({ c with pos := c.pos - 1 }, false)
  else if c.pos < 0 then .error ()
  else
    let b := c.input.getD c.pos.toNat 0   -- in range by the two guards
    if valid.contains b then .ok ({ c with pos := c.pos + 1 }, true)
    else .ok (c, false)

/-- Length of the longest prefix of `bs` whose bytes are all in `valid`
(how many times `acceptRun`'s loop consumes a valid byte). -/
def runLen (valid : List Nat) : List Nat → Nat
  | [] => 0
  | b :: rest => if valid.contains b then runLen valid rest + 1 else 0

/-- Go `l.acceptRun(valid)`: `for IndexRune(valid, l.next()) >= 0 {result
= true}` then a single `backup()`.  Unrolling the loop: starting past the
end, `next()` returns -1 at once and `backup()` still decrements `pos`;
starting at a negative `pos` (possible only on empty input), `next()`
indexes out of range; otherwise the loop consumes the `k = runLen ...`
valid bytes from `pos` and stops either on the first invalid byte (whose
`next()` the `backup()` undoes, leaving `pos + k`) or, if the run reaches
the end of input, on `next()` returning -1, after which `backup()` leaves
`pos` at `len - 1` — one byte *before* the end.  Returns whether at least
one byte was consumed. -/
def acceptRun (valid : List Nat) (c : LexCtx) : Except Unit (LexCtx × Bool) :=
  if c.pos ≥ (c.input.length : Int) then
    .ok ({ c with pos := c.pos - 1 }, false)
  else if c.pos < 0 then .error ()
  else
    let k := runLen valid (c.input.drop c.pos.toNat)
    if c.pos + k = (c.input.length : Int) then
      .ok ({ c with pos := (c.input.length : Int) - 1 }, decide (0 < k))
    else
      .ok ({ c with pos := c.pos + k }, decide (0 < k))

/-- Go `l.acceptKeyword(keyword)`: compare `l.input[l.pos:l.pos+len(kw)]`
(a panic when fewer bytes than the keyword remain) and advance on a
match. -/
def acceptKeyword (kw : List Nat) (c : LexCtx) : Except Unit (LexCtx × Bool) :=
  match sliceB c.input c.pos (c.pos + kw.length) with
  | .error e => .error e
  | .ok seg =>
    if seg = kw then .ok ({ c with pos := c.pos + kw.length }, true)
    else .ok (c, false)

/-- Go `l.acceptNumber()`: optional sign, a run of digit/dot characters,
then an optional exponent part (marker, optional sign, another digit/dot
run). -/
def acceptNumber (c : LexCtx) : Except Unit (LexCtx × Bool) :=
  match accept plusMinus c with
  | .error e => .error e
  | .ok (c1, _) =>
    match acceptRun floatDigits c1 with
    | .error e => .error e
    | .ok (c2, false) => .ok (c2, false)
    | .ok (c2, true) =>
      match accept expMarks c2 with
      | .error e => .error e
      | .ok (c3, false) => .ok (c3, true)
      | .ok (c3, true) =>
        match accept plusMinus c3 with
        | .error e => .error e
        | .ok (c4, _) =>
          match acceptRun floatDigits c4 with
          | .error e => .error e
          | .ok (c5, d2) => .ok (c5, d2)

/-- Whether `strconv.ParseFloat(s, 32)` accepts the token text `s`.
Modelled for exactly the strings `acceptNumber` can capture (characters
from `+-0123456789.eE` only, so the Inf/NaN/hex/underscore forms of the
full Go grammar are unreachable): an optional sign, a mantissa containing
at least one digit and at most one dot, and an optional exponent of
`e`/`E`, optional sign, and one or more digits; the whole string must be
consumed.  ParseFloat additionally reports ErrRange for out-of-range
literals such as `1e999`; no claim depends on that, and values are
abstracted as their literal text. -/
def isDigitB (ch : Nat) : Bool := 48 ≤ ch && ch ≤ 57

/-- Drop one leading sign character, if present. -/
def dropSign : List Nat → List Nat
  | [] => []
  | ch :: rest => if ch = 43 ∨ ch = 45 then rest else ch :: rest

/-- Scan a mantissa: digits and at most one dot.  Returns the unconsumed
remainder and the number of digits seen. -/
def scanMantissa : List Nat → Bool → Nat → List Nat × Nat
  | [], _, nd => ([], nd)
  | ch :: rest, sawdot, nd =>
    if isDigitB ch then scanMantissa rest sawdot (nd + 1)
    else if ch = 46 && !sawdot then scanMantissa rest true nd
    else (ch :: rest, nd)

def parseFloatOk (s : List Nat) : Bool :=
  let s1 := dropSign s
  let m := scanMantissa s1 false 0
  if m.2 = 0 then false
  else
    match m.1 with
    | [] => true
    | e :: r2 =>
      if e = 101 ∨ e = 69 then
        let r3 := dropSign r2
        !r3.isEmpty && r3.all isDigitB
      else false

/-- The number-then-convert step of `asciiVertex`: skip spaces, remember
the position in the local `c`, `acceptNumber`, slice the captured text,
and gate it through `strconv.ParseFloat`.  `.inl` carries the context
with the fatal error recorded (the state function then returns nil);
`.inr` carries the captured literal. -/
def vertexNumber (c0 : LexCtx) : Except Unit (LexCtx ⊕ (LexCtx × List Nat)) :=
  match acceptRun spaces c0 with
  | .error e => .error e
  | .ok (c1, _) =>
    match acceptNumber c1 with
    | .error e => .error e
    | .ok (c2, false) =>
      match sliceB c2.input c2.pos (c2.pos + 1) with
      | .error e => .error e
      | .ok saw => .ok (.inl (setErr c2 (.expectedNumber c2.pos saw)))
    | .ok (c2, true) =>
      match sliceB c2.input c1.pos c2.pos with
      | .error e => .error e
      | .ok tok =>
        if parseFloatOk tok then .ok (.inr (c2, tok))
        else .ok (.inl (setErr c2 (.badFloat tok)))

/-- The number-then-convert step of `asciiFacet` (normal components):
identical to `vertexNumber` except that Go tracks the token start in
`l.start` via `l.ignore()` instead of a local variable. -/
def facetNumber (c0 : LexCtx) : Except Unit (LexCtx ⊕ (LexCtx × List Nat)) :=
  match acceptRun spaces c0 with
  | .error e => .error e
  | .ok (c1, _) =>
    let c1 := { c1 with start := c1.pos }    -- l.ignore()
    match acceptNumber c1 with
    | .error e => .error e
    | .ok (c2, false) =>
      match sliceB c2.input c2.pos (c2.pos + 1) with
      | .error e => .error e
      | .ok saw => .ok (.inl (setErr c2 (.expectedNumber c2.pos saw)))
    | .ok (c2, true) =>
      match sliceB c2.input c2.start c2.pos with
      | .error e => .error e
      | .ok tok =>
        if parseFloatOk tok then .ok (.inr (c2, tok))
        else .ok (.inl (setErr c2 (.badFloat tok)))

/-- One iteration of `asciiVertex`'s outer loop: keyword `vertex`, then
three numbers assembled into a vertex. -/
def oneVertex (c0 : LexCtx) : Except Unit (LexCtx ⊕ (LexCtx × Vertex)) :=
  match acceptRun spaces c0 with
  | .error e => .error e
  | .ok (c1, _) =>
    match acceptKeyword kwVertex c1 with
    | .error e => .error e
    | .ok (c2, false) =>
      match sliceB c2.input c2.pos (c2.pos + 6) with
      | .error e => .error e
      | .ok saw => .ok (.inl (setErr c2 (.expectedKeyword kwVertex c2.pos saw)))
    | .ok (c2, true) =>
      match vertexNumber c2 with
      | .error e => .error e
      | .ok (.inl ce) => .ok (.inl ce)
      | .ok (.inr (c3, t1)) =>
        match vertexNumber c3 with
        | .error e => .error e
        | .ok (.inl ce) => .ok (.inl ce)
        | .ok (.inr (c4, t2)) =>
          match vertexNumber c4 with
          | .error e => .error e
          | .ok (.inl ce) => .ok (.inl ce)
          | .ok (.inr (c5, t3)) =>
            .ok (.inr (c5, ⟨.ofText t1, .ofText t2, .ofText t3⟩))

/-- The lexer's states.  Go represents the state as a function value
(`stateFn`); `none` in the step result is the nil state (termination). -/
inductive LexState where
  | header
  | facet
  | vertex
deriving DecidableEq, Repr

/-- Result of one state-function application: the updated lexer, the next
state (`none` = the nil state), and the facet emitted on the channel, if
any. -/
abbrev StepOut := LexCtx × Option LexState × Option Facet

/-- Go `asciiVertex`: three `vertex` groups, `endloop`, `endfacet`, then
complete the pending facet, emit it (`l.emit` also sets `start := pos`),
clear it, and return to the facet state.  A nil `pendingFacet` would be a
Go nil-pointer dereference (`.error ()`); it cannot occur from the
initial state. -/
def asciiVertex (c0 : LexCtx) : Except Unit StepOut :=
  match oneVertex c0 with
  | .error e => .error e
  | .ok (.inl ce) => .ok (ce, none, none)
  | .ok (.inr (c1, v1)) =>
    match oneVertex c1 with
    | .error e => .error e
    | .ok (.inl ce) => .ok (ce, none, none)
    | .ok (.inr (c2, v2)) =>
      match oneVertex c2 with
      | .error e => .error e
      | .ok (.inl ce) => .ok (ce, none, none)
      | .ok (.inr (c3, v3)) =>
        match acceptRun spaces c3 with
        | .error e => .error e
        | .ok (c4, _) =>
          match acceptKeyword kwEndloop c4 with
          | .error e => .error e
          | .ok (c5, false) =>
            match sliceB c5.input c5.pos (c5.pos + 7) with
            | .error e => .error e
            | .ok saw =>
              .ok (setErr c5 (.expectedKeyword kwEndloop c5.pos saw), none, none)
          | .ok (c5, true) =>
            match acceptRun spaces c5 with
            | .error e => .error e
            | .ok (c6, _) =>
              match acceptKeyword kwEndfacet c6 with
              | .error e => .error e
              | .ok (c7, false) =>
                match sliceB c7.input c7.pos (c7.pos + 8) with
                | .error e => .error e
                | .ok saw =>
                  .ok (setErr c7 (.expectedKeyword kwEndfacet c7.pos saw),
                       none, none)
              | .ok (c7, true) =>
                match acceptRun spaces c7 with
                | .error e => .error e
                | .ok (c8, _) =>
                  match c8.pending with
                  | none => .error ()   -- nil-pointer dereference
                  | some pf =>
                    let f : Facet :=
                      { pf with v0 := v1, v1 := v2, v2 := v3, valid := true }
                    .ok ({ c8 with start := c8.pos, pending := none },
                         some .facet, some f)

/-- Go `asciiFacet`: keyword `facet` (or `endsolid`, which terminates
cleanly), `normal`, three normal components, `outer`, `loop`; build the
pending facet holding the normal and go to the vertex state. -/
def asciiFacet (c0 : LexCtx) : Except Unit StepOut :=
  match acceptRun spaces c0 with
  | .error e => .error e
  | .ok (c1, _) =>
    match acceptKeyword kwFacet c1 with
    | .error e => .error e
    | .ok (c2, false) =>
      match acceptKeyword kwEndsolid c2 with
      | .error e => .error e
      | .ok (c3, true) => .ok (c3, none, none)
      | .ok (c3, false) =>
        match sliceB c3.input c3.pos (c3.pos + 5) with
        | .error e => .error e
        | .ok saw =>
          .ok (setErr c3 (.expectedKeyword kwFacet c3.pos saw), none, none)
    | .ok (c2, true) =>
      match acceptRun spaces c2 with
      | .error e => .error e
      | .ok (c3, _) =>
        match acceptKeyword kwNormal c3 with
        | .error e => .error e
        | .ok (c4, false) =>
          match sliceB c4.input c4.pos (c4.pos + 6) with
          | .error e => .error e
          | .ok saw =>
            .ok (setErr c4 (.expectedKeyword kwNormal c4.pos saw), none, none)
        | .ok (c4, true) =>
          match facetNumber c4 with
          | .error e => .error e
          | .ok (.inl ce) => .ok (ce, none, none)
          | .ok (.inr (c5, t1)) =>
            match facetNumber c5 with
            | .error e => .error e
            | .ok (.inl ce) => .ok (ce, none, none)
            | .ok (.inr (c6, t2)) =>
              match facetNumber c6 with
              | .error e => .error e
              | .ok (.inl ce) => .ok (ce, none, none)
              | .ok (.inr (c7, t3)) =>
                match acceptRun spaces c7 with
                | .error e => .error e
                | .ok (c8, _) =>
                  match acceptKeyword kwOuter c8 with
                  | .error e => .error e
                  | .ok (c9, false) =>
                    match sliceB c9.input c9.pos (c9.pos + 5) with
                    | .error e => .error e
                    | .ok saw =>
                      .ok (setErr c9 (.expectedKeyword kwOuter c9.pos saw),
                           none, none)
                  | .ok (c9, true) =>
                    match acceptRun spaces c9 with
                    | .error e => .error e
                    | .ok (c10, _) =>
                      match acceptKeyword kwLoop c10 with
                      | .error e => .error e
                      | .ok (c11, false) =>
                        match sliceB c11.input c11.pos (c11.pos + 4) with
                        | .error e => .error e
                        | .ok saw =>
                          .ok (setErr c11 (.expectedKeyword kwLoop c11.pos saw),
                               none, none)
                      | .ok (c11, true) =>
                        let pf : Facet :=
                          { v0 := vertexZero, v1 := vertexZero,
                            v2 := vertexZero, valid := false,
                            normal := ⟨.ofText t1, .ofText t2, .ofText t3⟩ }
                        .ok ({ c11 with pending := some pf },
                             some .vertex, none)

/-- Go `asciiFileHeader`: skip spaces, consume an identifier run, and
compare the consumed text `l.input[l.start:l.pos]` (note: `start` is
still 0, so any skipped leading spaces are part of the compared text)
with `"facet"`; on a match `l.ignore()` and go to the facet state,
otherwise record the text as the mesh name. -/
def asciiFileHeader (c0 : LexCtx) : Except Unit StepOut :=
  match acceptRun spaces c0 with
  | .error e => .error e
  | .ok (c1, _) =>
    match acceptRun ident c1 with
    | .error e => .error e
    | .ok (c2, _) =>
      match sliceB c2.input c2.start c2.pos with
      | .error e => .error e
      | .ok nm =>
        if nm = kwFacet then .ok ({ c2 with start := c2.pos }, some .facet, none)
        else .ok ({ c2 with meshName := nm }, some .facet, none)

/-- Apply the current state function. -/
def lexStep (c : LexCtx) : LexState → Except Unit StepOut
  | .header => asciiFileHeader c
  | .facet => asciiFacet c
  | .vertex => asciiVertex c

/-- Drive the state machine, collecting the facets emitted on the
channel in order, until the nil state; mirrors the
`nextFacet`/`parseASCII` pull loop with the (unobservable) channel
buffering flattened out.  Each continuing state transition strictly
advances `pos`, so `input.length + 3` units of fuel (used in
`parseASCII`) always reach the nil state. -/
def runLex : Nat → LexCtx → LexState → Except Unit (LexCtx × List Facet)
  | 0, c, _ => .ok (c, [])
  | fuel + 1, c, st =>
    match lexStep c st with
    | .error e => .error e
    | .ok (c1, none, em) => .ok (c1, em.toList)
    | .ok (c1, some st1, em) =>
      match runLex fuel c1 st1 with
      | .error e => .error e
      | .ok (c2, fs) => .ok (c2, em.toList ++ fs)

/-- The lexer `lex(name, input, asciiFileHeader)` starts at offset 0 with
no name, no error, no pending facet. -/
def initCtx (input : List Nat) : LexCtx :=
  { input := input, start := 0, pos := 0, meshName := [],
    err := none, pending := none }

/-- The complete run of the state machine that `parseASCII` consumes. -/
def asciiRun (bs : List Nat) : Except Unit (LexCtx × List Facet) :=
  runLex (bs.length + 3) (initCtx bs) .header

/-- Go `parseASCII`: pull facets until the machine terminates; if a fatal
error was recorded, fail with `LexerError` and return no facets (the Go
code returns `nil, LexerError{...}`, discarding every facet already
collected); otherwise return the collected facets. -/
def parseASCII (bs : List Nat) : PRes :=
  match asciiRun bs with
  | .error _ => .panic
  | .ok (c, fs) =>
    match c.err with
    | some m => .err (.lexError m)
    | none => .ok fs

/-- Go `ParseSTLBytes`: reject inputs shorter than 5 bytes; if the first
5 bytes are `"solid"` try the ASCII lexer on the remainder and, on an
ASCII error, fall back to the binary reader on the entire original
buffer, surfacing the ASCII error if the binary attempt also fails;
otherwise go straight to the binary reader. -/
def ParseSTLBytes (stl : List Nat) : PRes :=
  if stl.length < 5 then .err .tooSmall
  else if stl.take 5 = kwSolid then
    match parseASCII (stl.drop 5) with
    | .panic => .panic
    | .ok fs => .ok fs
    | .err e =>
      match parseBinary stl with
      | .ok fs2 => .ok fs2
      | .error _ => .err e
  else
    match parseBinary stl with
    | .ok fs => .ok fs
    | .error e => .err e

/-! ### Concrete inputs and values used by the witnesses and counterexamples -/

/-- Binary buffer: 80-byte zero header, count 1, one record whose normal
words are the bits of 1.0f (bytes 0-3 = 00 00 80 3f) and whose other
fields are zero. -/
def c2cexInput : List Nat :=
  List.replicate 80 0 ++ ([1, 0, 0, 0] ++ ([0, 0, 128, 63] ++ List.replicate 46 0))

/-- The facet `parseBinary` actually returns for `c2cexInput`. -/
def c2cexActual : Facet :=
  { v0 := vertexZero, v1 := vertexZero, v2 := vertexZero,
    valid := true, normal := vertexZero }

/-- The facet claim C2 predicts for `c2cexInput`: Normal decoded from the
record's bytes 0-11 (1065353216 is the little-endian word of the bytes
00 00 80 3f). -/
def c2cexClaimed : Facet :=
  { v0 := vertexZero, v1 := vertexZero, v2 := vertexZero,
    valid := true, normal := ⟨.ofBits 1065353216, .ofBits 0, .ofBits 0⟩ }

/-- A record with twelve distinct small float words. -/
def wRec : BRec := ⟨1, 2, 3, 4, 5, 6, 7, 8, 9, 10, 11, 12, 0⟩

/-- Binary buffer: zero header, count 2, first record with third vertex
words (1,2,3), second record all zero. -/
def w3Input : List Nat :=
  List.replicate 80 0 ++
    ([2, 0, 0, 0] ++
      ((List.replicate 36 0 ++ ([1, 0, 0, 0] ++ ([2, 0, 0, 0] ++ ([3, 0, 0, 0] ++ [0, 0])))) ++
        List.replicate 50 0))

/-- First facet of `w3Input`: third vertex (1,2,3), normal zero. -/
def w3F0 : Facet :=
  { v0 := vertexZero, v1 := vertexZero,
    v2 := ⟨.ofBits 1, .ofBits 2, .ofBits 3⟩,
    valid := true, normal := vertexZero }

/-- Second facet of `w3Input`: all-zero vertices, normal = the first
facet's third vertex (the stale scratch buffer). -/
def w3F1 : Facet :=
  { v0 := vertexZero, v1 := vertexZero, v2 := vertexZero,
    valid := true,
    normal := ⟨.ofBits 1, .ofBits 2, .ofBits 3⟩ }

/-- Truncated binary buffer: header present, count 5, but only 30 record
bytes. -/
def w7cInput : List Nat := List.replicate 80 0 ++ ([5, 0, 0, 0] ++ List.replicate 30 0)

/-- Well-formed one-record binary input (for the C2 amended witness). -/
def w2Input : List Nat :=
  List.replicate 80 0 ++ (enc4 1 ++ concatAll ([wRec].map encRecord))

/-- The same one-record input with three trailing junk bytes (C10 witness). -/
def w10Input : List Nat :=
  List.replicate 80 0 ++ (enc4 1 ++ (concatAll ([wRec].map encRecord) ++ [7, 7, 7]))

/-- The all-zero facet decoded from an all-zero binary record. -/
def zeroFacet : Facet :=
  { v0 := vertexZero, v1 := vertexZero, v2 := vertexZero,
    valid := true, normal := vertexZero }

/-- ASCII literal values "0" and "1" as parsed floats. -/
def tok0 : F32 := .ofText (strBytes ("0"))
def tok1 : F32 := .ofText (strBytes ("1"))

/-- The facet decoded from
`facet normal 0 0 0 outer loop vertex 0 0 0 vertex 0 0 1 vertex 0 1 0 endloop endfacet`. -/
def asciiFacet010 : Facet :=
  { v0 := ⟨tok0, tok0, tok0⟩, v1 := ⟨tok0, tok0, tok1⟩, v2 := ⟨tok0, tok1, tok0⟩,
    valid := true, normal := ⟨tok0, tok0, tok0⟩ }

/-- C1 witness inputs: `"solid"` followed by binary-layout bytes.  The
ASCII attempt fails on both with the same lexer message `w1Msg`;
the binary fallback succeeds on `w1aInput` (80-byte header made of
`"solid"` plus 75 zeros, count 1, one all-zero record) and fails on the
15-byte `w1bInput`. -/
def w1Msg : LexMsg := .expectedKeyword kwFacet 0 (List.replicate 5 0)
def w1aInput : List Nat :=
  strBytes ("solid") ++ (List.replicate 75 0 ++ ([1, 0, 0, 0] ++ List.replicate 50 0))
def w1bInput : List Nat := strBytes ("solid") ++ List.replicate 10 0

/-- C4 failing input: a nameless solid, the `facet` keyword directly
after the `solid` sentinel. -/
def c4Input : List Nat :=
  strBytes ("solidfacet normal 0 0 0 outer loop vertex 0 0 0 vertex 0 0 1 vertex 0 1 0 endloop endfacet endsolid")

/-- The error the parse of `c4Input` actually records: the header state
consumed the `facet` keyword, so the facet state, expecting `facet` at
offset 6, sees `norma`. -/
def c4Msg : LexMsg := .expectedKeyword kwFacet 6 (strBytes ("norma"))

/-- Specification-side reading of a lexer error value, following the
claim's words: the message identifies what was expected (the constructor
and, for a keyword error, the expected keyword itself), carries the
current byte offset, and carries the offending bytes actually found at
that offset in the input.  Concretely: a keyword message's excerpt is the
keyword-length slice of the input at the recorded offset (Go formats
`l.input[l.pos:l.pos+len(keyword)]`) and really differs from the expected
keyword; a number message's excerpt is the one byte at the recorded
offset; a conversion message carries a literal the float gate rejects. -/
def msgAccurate (input : List Nat) : LexMsg → Prop
  | .expectedKeyword kw p saw =>
      sliceB input p (p + kw.length) = .ok saw ∧ saw ≠ kw
  | .expectedNumber p saw => sliceB input p (p + 1) = .ok saw
  | .badFloat tok => parseFloatOk tok = false

/-- C5 amended witness input (bytes after the sentinel): a keyword
mismatch at the `outer` site. -/
def w5aInput : List Nat := strBytes (" x facet normal 0 0 0 outar loop")

/-- The error recorded on `w5aInput`: expected `outer` at offset 22, saw
`outar`. -/
def w5aMsg : LexMsg := .expectedKeyword kwOuter 22 (strBytes ("outar"))

/-- The final lexer context of the `w5aInput` run. -/
def w5aCtx : LexCtx :=
  { input := w5aInput, start := 20, pos := 22, meshName := strBytes (" x"),
    err := some w5aMsg, pending := none }

/-- C5 amended witness input: a mismatch at an expected-number site (the
first normal component is `q`). -/
def w5bInput : List Nat := strBytes (" x facet normal q 0 0 outer loop")

/-- The error recorded on `w5bInput`: expected a number at offset 16,
saw `q`. -/
def w5bMsg : LexMsg := .expectedNumber 16 (strBytes ("q"))

/-- The final lexer context of the `w5bInput` run. -/
def w5bCtx : LexCtx :=
  { input := w5bInput, start := 16, pos := 16, meshName := strBytes (" x"),
    err := some w5bMsg, pending := none }

/-- C6 witness input (bytes after the `solid` sentinel): one complete
facet block, then a second facet block that omits `endloop`. -/
def w6Input : List Nat :=
  strBytes (" m facet normal 0 0 0 outer loop vertex 0 0 0 vertex 0 0 1 vertex 0 1 0 endloop endfacet facet normal 0 0 0 outer loop vertex 0 0 0 vertex 0 0 1 vertex 0 1 0 endfacet endsolid")

/-- The fatal error recorded while parsing `w6Input`: at offset 158,
where `endloop` was expected, the lexer saw `endface`. -/
def w6Msg : LexMsg := .expectedKeyword kwEndloop 158 (strBytes ("endface"))

/-- The lexer context at which the `w6Input` run terminates: the error is
recorded and the second facet is still pending (incomplete). -/
def w6Ctx : LexCtx :=
  { input := w6Input, start := 106, pos := 158, meshName := strBytes (" m"),
    err := some w6Msg,
    pending := some { v0 := vertexZero, v1 := vertexZero, v2 := vertexZero,
                      valid := false, normal := ⟨tok0, tok0, tok0⟩ } }

/-- C8 witness input: a complete one-facet ASCII file. -/
def w8Input : List Nat :=
  strBytes ("solid m facet normal 0 0 0 outer loop vertex 0 0 0 vertex 0 0 1 vertex 0 1 0 endloop endfacet endsolid")

/-- C9 witness: the vertex-number routine positioned at `1.2.3 `. -/
def w9c0 : LexCtx :=
  { input := strBytes ("1.2.3 "), start := 0, pos := 0,
    meshName := [], err := none, pending := none }

/-- The context after `acceptNumber` consumed the five bytes of `1.2.3`. -/
def w9c2 : LexCtx := { w9c0 with pos := 5 }

/-- The captured malformed literal. -/
def w9Tok : List Nat := strBytes ("1.2.3")

/-- C9 witness input for the end-to-end parse (bytes after the
sentinel): the first vertex coordinate is the malformed literal. -/
def w9Input : List Nat :=
  strBytes (" q facet normal 0 0 0 outer loop vertex 1.2.3 0 0 vertex 0 0 0 vertex 0 0 0 endloop endfacet endsolid")

/-! ### Lemmas about the binary reader -/

theorem readF32_length {bs rest : List Nat} {w : Nat}
    (h : readF32 bs = some (w, rest)) : bs.length = rest.length + 4 := by
  match bs with
  | [] | [_] | [_, _] | [_, _, _] => simp [readF32] at h
  | b0 :: b1 :: b2 :: b3 :: r =>
    simp only [readF32, Option.some.injEq, Prod.mk.injEq] at h
    simp [← h.2]

theorem readU16_length {bs rest : List Nat} {w : Nat}
    (h : readU16 bs = some (w, rest)) : bs.length = rest.length + 2 := by
  match bs with
  | [] | [_] => simp [readU16] at h
  | b0 :: b1 :: r =>
    simp only [readU16, Option.some.injEq, Prod.mk.injEq] at h
    simp [← h.2]

theorem readVertex_length {bs rest : List Nat} {v : Vertex}
    (h : readVertex bs = some (v, rest)) : bs.length = rest.length + 12 := by
  unfold readVertex at h
  cases h1 : readF32 bs with
  | none => rw [h1] at h; simp at h
  | some p1 =>
    obtain ⟨x, bs1⟩ := p1
    rw [h1] at h
    dsimp only at h
    cases h2 : readF32 bs1 with
    | none => rw [h2] at h; simp at h
    | some p2 =>
      obtain ⟨y, bs2⟩ := p2
      rw [h2] at h
      dsimp only at h
      cases h3 : readF32 bs2 with
      | none => rw [h3] at h; simp at h
      | some p3 =>
        obtain ⟨z, bs3⟩ := p3
        rw [h3] at h
        simp only [Option.some.injEq, Prod.mk.injEq] at h
        have l1 := readF32_length h1
        have l2 := readF32_length h2
        have l3 := readF32_length h3
        rw [← h.2]
        omega

/-- One iteration of the binary record loop either fails with the
end-of-buffer error or consumes exactly 50 bytes, produces a valid facet
whose normal is the incoming scratch value `ps`, and recurses with the
scratch set to the record's third vertex. -/
theorem parseBinaryLoop_succ_cases (k : Nat) (bs : List Nat) (ps : Vertex) :
    parseBinaryLoop (k + 1) bs ps = .error .binEOF ∨
    ∃ w0 w1 w2 bs7, bs.length = bs7.length + 50 ∧
      parseBinaryLoop (k + 1) bs ps =
        (match parseBinaryLoop k bs7 w2 with
         | .error e => .error e
         | .ok rest => .ok ({ v0 := w0, v1 := w1, v2 := w2,
                              valid := true, normal := ps } :: rest)) := by
  simp only [parseBinaryLoop]
  cases h1 : readF32 bs with
  | none => exact .inl rfl
  | some p1 =>
  obtain ⟨t1, bs1⟩ := p1
  have l1 := readF32_length h1
  dsimp only
  cases h2 : readF32 bs1 with
  | none => exact .inl rfl
  | some p2 =>
  obtain ⟨t2, bs2⟩ := p2
  have l2 := readF32_length h2
  dsimp only
  cases h3 : readF32 bs2 with
  | none => exact .inl rfl
  | some p3 =>
  obtain ⟨t3, bs3⟩ := p3
  have l3 := readF32_length h3
  dsimp only
  cases h4 : readVertex bs3 with
  | none => exact .inl rfl
  | some p4 =>
  obtain ⟨w0, bs4⟩ := p4
  have l4 := readVertex_length h4
  dsimp only
  cases h5 : readVertex bs4 with
  | none => exact .inl rfl
  | some p5 =>
  obtain ⟨w1, bs5⟩ := p5
  have l5 := readVertex_length h5
  dsimp only
  cases h6 : readVertex bs5 with
  | none => exact .inl rfl
  | some p6 =>
  obtain ⟨w2, bs6⟩ := p6
  have l6 := readVertex_length h6
  dsimp only
  cases h7 : readU16 bs6 with
  | none => exact .inl rfl
  | some p7 =>
  obtain ⟨a, bs7⟩ := p7
  have l7 := readU16_length h7
  dsimp only
  exact .inr ⟨w0, w1, w2, bs7, by omega, rfl⟩

/-- A buffer holding fewer than 50·n bytes fails with the end-of-buffer
error: no facets at all are returned, not even for fully decoded leading
records. -/
theorem parseBinaryLoop_short :
    ∀ (n : Nat) (bs : List Nat) (ps : Vertex), bs.length < 50 * n →
      parseBinaryLoop n bs ps = .error .binEOF := by
  intro n
  induction n with
  | zero => intro bs ps h; omega
  | succ k ih =>
    intro bs ps h
    rcases parseBinaryLoop_succ_cases k bs ps with hc | ⟨w0, w1, w2, bs7, hlen, hc⟩
    · exact hc
    · rw [hc, ih bs7 w2 (by omega)]

/-- Every successful run of the record loop yields facets that are all
valid and whose normals form the stale chain starting at the incoming
scratch value. -/
theorem parseBinaryLoop_chain :
    ∀ (n : Nat) (bs : List Nat) (ps : Vertex) (fs : List Facet),
      parseBinaryLoop n bs ps = .ok fs →
      (∀ f ∈ fs, f.valid = true) ∧ normalsChained ps fs := by
  intro n
  induction n with
  | zero =>
    intro bs ps fs h
    simp only [parseBinaryLoop, Except.ok.injEq] at h
    subst h
    simp [normalsChained]
  | succ k ih =>
    intro bs ps fs h
    rcases parseBinaryLoop_succ_cases k bs ps with hc | ⟨w0, w1, w2, bs7, hlen, hc⟩
    · rw [hc] at h; exact absurd h (by simp)
    · rw [hc] at h
      cases hr : parseBinaryLoop k bs7 w2 with
      | error e => rw [hr] at h; simp at h
      | ok rest =>
        rw [hr] at h
        simp only [Except.ok.injEq] at h
        subst h
        obtain ⟨ihv, ihc⟩ := ih bs7 w2 rest hr
        refine ⟨?_, rfl, ihc⟩
        intro f hf
        rcases List.mem_cons.mp hf with hf | hf
        · rw [hf]
        · exact ihv f hf

/-- Indexed form of the stale-normal chain: the first facet's normal is
the chain seed and each later facet's normal is the previous facet's
third vertex. -/
theorem normalsChained_get :
    ∀ (fs : List Facet) (ps : Vertex), normalsChained ps fs →
      (∀ (h0 : 0 < fs.length), (fs.get ⟨0, h0⟩).normal = ps) ∧
      (∀ (i : Nat) (hi : i + 1 < fs.length),
        (fs.get ⟨i + 1, hi⟩).normal =
          (fs.get ⟨i, Nat.lt_of_succ_lt hi⟩).v2) := by
  intro fs
  induction fs with
  | nil =>
    intro ps _
    constructor
    · intro h0; simp at h0
    · intro i hi; simp at hi
  | cons f rest ih =>
    intro ps hch
    obtain ⟨h1, h2⟩ := hch
    obtain ⟨ih1, ih2⟩ := ih f.v2 h2
    constructor
    · intro _; exact h1
    · intro i hi
      match i with
      | 0 =>
        have hr : 0 < rest.length := by simpa using hi
        exact ih1 hr
      | j + 1 =>
        have hr : j + 1 < rest.length := by simpa using hi
        exact ih2 j hr

/-- The length of the specified binary facet list equals the number of
records. -/
theorem bSpecFacets_length :
    ∀ (rs : List BRec) (ps : Vertex), (bSpecFacets ps rs).length = rs.length := by
  intro rs
  induction rs with
  | nil => intro ps; rfl
  | cons r rest ih => intro ps; simp [bSpecFacets, ih]

/-- Reading a float32 from an encoded word recovers the word (mod 2^32). -/
theorem readF32_enc4 (w : Nat) (rest : List Nat) :
    readF32 (enc4 w ++ rest) = some (w % 4294967296, rest) := by
  simp only [enc4, List.cons_append, List.nil_append, readF32,
    Option.some.injEq, Prod.mk.injEq, and_true]
  omega

/-- Reading the attribute from its encoding succeeds. -/
theorem readU16_enc2 (w : Nat) (rest : List Nat) :
    readU16 (enc2 w ++ rest) = some (w % 65536, rest) := by
  simp only [enc2, List.cons_append, List.nil_append, readU16,
    Option.some.injEq, Prod.mk.injEq, and_true]
  omega

/-- Reading a vertex from three encoded words recovers them. -/
theorem readVertex_enc (x y z : Nat) (rest : List Nat)
    (hx : x < 4294967296) (hy : y < 4294967296) (hz : z < 4294967296) :
    readVertex (enc4 x ++ (enc4 y ++ (enc4 z ++ rest))) =
      some (⟨.ofBits x, .ofBits y, .ofBits z⟩, rest) := by
  unfold readVertex
  rw [readF32_enc4, Nat.mod_eq_of_lt hx]
  dsimp only
  rw [readF32_enc4, Nat.mod_eq_of_lt hy]
  dsimp only
  rw [readF32_enc4, Nat.mod_eq_of_lt hz]

/-- Decoding the concatenated encodings of `rs` (with arbitrary trailing
bytes) produces exactly the specified facet list. -/
theorem parseBinaryLoop_enc :
    ∀ (rs : List BRec) (trail : List Nat) (ps : Vertex),
      (∀ r ∈ rs, recOk r) →
      parseBinaryLoop rs.length (concatAll (rs.map encRecord) ++ trail) ps =
        .ok (bSpecFacets ps rs) := by
  intro rs
  induction rs with
  | nil => intro trail ps _; rfl
  | cons r rest ih =>
    intro trail ps hok
    have hr := hok r (List.mem_cons_self r rest)
    obtain ⟨b1, b2, b3, b4, b5, b6, b7, b8, b9, b10, b11, b12⟩ := hr
    have hrest : ∀ q ∈ rest, recOk q := fun q hq => hok q (List.mem_cons_of_mem r hq)
    simp only [List.map_cons, concatAll, List.length_cons, encRecord,
      List.append_assoc]
    simp only [parseBinaryLoop]
    rw [readF32_enc4]
    dsimp only
    rw [readF32_enc4]
    dsimp only
    rw [readF32_enc4]
    dsimp only
    rw [readVertex_enc _ _ _ _ b4 b5 b6]
    dsimp only
    rw [readVertex_enc _ _ _ _ b7 b8 b9]
    dsimp only
    rw [readVertex_enc _ _ _ _ b10 b11 b12]
    dsimp only
    rw [readU16_enc2]
    dsimp only
    rw [ih trail ⟨.ofBits r.x3, .ofBits r.y3, .ofBits r.z3⟩ hrest]
    simp [bSpecFacets, recV3]

/-! ### Claim theorems: binary reader -/

/-- C7: the binary reader fails with the header-truncation error for
every buffer shorter than 80 bytes, with the count-truncation error for
every buffer with fewer than 4 bytes after the header, and with the
end-of-buffer error for every buffer exhausted before a 50-byte record is
fully read (`tri` being the bytes after the count, `n` the declared
count); in the last case the `.error` result carries no facets, so
nothing from a fully decoded prefix of records is returned. -/
theorem c7_binary_truncation (bs : List Nat) :
    (bs.length < 80 → parseBinary bs = .error .binHeader) ∧
    (80 ≤ bs.length → bs.length < 84 → parseBinary bs = .error .binNoData) ∧
    (∀ (n : Nat) (tri : List Nat), 84 ≤ bs.length →
      readF32 (bs.drop 80) = some (n, tri) → tri.length < 50 * n →
      parseBinary bs = .error .binEOF) := by
  refine ⟨?_, ?_, ?_⟩
  · intro h
    simp [parseBinary, h]
  · intro h1 h2
    unfold parseBinary
    rw [if_neg (by omega)]
    rw [if_pos (by simp only [List.length_drop]; omega)]
  · intro n tri h1 h2 h3
    unfold parseBinary
    rw [if_neg (by omega)]
    rw [if_neg (by simp only [List.length_drop]; omega)]
    rw [h2]
    exact parseBinaryLoop_short n tri vertexZero h3

/-- C7 witness: a 10-byte buffer, an 82-byte buffer, and a buffer whose
declared count of 5 records exceeds the 30 available record bytes. -/
theorem c7_witness :
    parseBinary (List.replicate 10 0) = .error .binHeader ∧
    parseBinary (List.replicate 82 0) = .error .binNoData ∧
    parseBinary w7cInput = .error .binEOF := by
  refine ⟨(c7_binary_truncation _).1 (by simp), ?_, ?_⟩
  · exact (c7_binary_truncation _).2.1 (by simp) (by simp)
  · exact (c7_binary_truncation w7cInput).2.2 5 (List.replicate 30 0)
      (by decide) (by decide) (by decide)

/-- C3: for every successful run of the binary reader, the first facet's
Normal is the zero vector and every later facet's Normal equals the
previous facet's third vertex — the stale contents of the vertex-decoding
scratch buffer, never the three normal floats freshly read from the
facet's own record. -/
theorem c3_stale_normal (bs : List Nat) (fs : List Facet)
    (h : parseBinary bs = .ok fs) :
    (∀ (h0 : 0 < fs.length), (fs.get ⟨0, h0⟩).normal = vertexZero) ∧
    (∀ (i : Nat) (hi : i + 1 < fs.length),
      (fs.get ⟨i + 1, hi⟩).normal = (fs.get ⟨i, Nat.lt_of_succ_lt hi⟩).v2) := by
  unfold parseBinary at h
  by_cases h80 : bs.length < 80
  · rw [if_pos h80] at h; simp at h
  · rw [if_neg h80] at h
    by_cases h4 : (bs.drop 80).length < 4
    · rw [if_pos h4] at h; simp at h
    · rw [if_neg h4] at h
      cases hr : readF32 (bs.drop 80) with
      | none => rw [hr] at h; simp at h
      | some p =>
        obtain ⟨n, tri⟩ := p
        rw [hr] at h
        exact normalsChained_get fs vertexZero
          (parseBinaryLoop_chain n tri vertexZero fs h).2

/-- C3 witness: a two-record buffer; the second facet's normal is the
first facet's third vertex, and the first facet's normal is zero. -/
theorem c3_witness :
    parseBinary w3Input = .ok [w3F0, w3F1] ∧
    w3F1.normal = w3F0.v2 ∧ w3F0.normal = vertexZero := by
  have hp : parseBinary w3Input = .ok [w3F0, w3F1] := rfl
  have hc := c3_stale_normal w3Input [w3F0, w3F1] hp
  refine ⟨hp, ?_, ?_⟩
  · simpa using hc.2 0 (by simp)
  · simpa using hc.1 (by simp)

/-- C2 counterexample: a well-formed one-record binary input whose record
has normal words (1.0, 0, 0) at bytes 0-11.  The claim predicts the facet
`c2cexClaimed` with that Normal; the code returns `c2cexActual`, whose
Normal is the zero scratch vector, so the claim fails at this input. -/
theorem c2_counterexample :
    parseBinary c2cexInput = .ok [c2cexActual] ∧ c2cexActual ≠ c2cexClaimed := by
  exact ⟨rfl, by decide⟩

/-- C2 amended: for a well-formed binary input (80-byte header, count N,
then the N 50-byte records), parsing returns exactly N facets in record
order, each valid with its three Vertices decoded from its own record's
bytes 12-47 as little-endian 32-bit floats — but the Normal is not taken
from the record's bytes 0-11: it is the stale scratch value, the zero
vector for the first facet and the previous record's third vertex
afterwards (`bSpecFacets`). -/
theorem c2_amended (hdr : List Nat) (rs : List BRec)
    (h80 : hdr.length = 80) (hok : ∀ r ∈ rs, recOk r)
    (hn : rs.length < 4294967296) :
    parseBinary (hdr ++ (enc4 rs.length ++ concatAll (rs.map encRecord))) =
      .ok (bSpecFacets vertexZero rs) ∧
    (bSpecFacets vertexZero rs).length = rs.length := by
  refine ⟨?_, bSpecFacets_length rs vertexZero⟩
  unfold parseBinary
  rw [if_neg (by simp [List.length_append, h80])]
  rw [List.drop_left' h80]
  rw [if_neg (by simp [List.length_append, enc4])]
  rw [readF32_enc4, Nat.mod_eq_of_lt hn]
  have h := parseBinaryLoop_enc rs [] vertexZero hok
  rwa [List.append_nil] at h

/-- C2 amended witness: one record with distinct words; the parse yields
the single specified facet. -/
theorem c2_amended_witness :
    parseBinary w2Input = .ok (bSpecFacets vertexZero [wRec]) ∧
    (bSpecFacets vertexZero [wRec]).length = 1 := by
  have h := c2_amended (List.replicate 80 0) [wRec] (by simp) (by decide) (by decide)
  exact ⟨h.1, h.2⟩

/-- C10: bytes beyond the N declared 50-byte records are silently
ignored: the binary decode succeeds with exactly N facets for any
trailing junk `trail`. -/
theorem c10_trailing_ignored (hdr : List Nat) (rs : List BRec) (trail : List Nat)
    (h80 : hdr.length = 80) (hok : ∀ r ∈ rs, recOk r)
    (hn : rs.length < 4294967296) :
    parseBinary (hdr ++ (enc4 rs.length ++ (concatAll (rs.map encRecord) ++ trail))) =
      .ok (bSpecFacets vertexZero rs) ∧
    (bSpecFacets vertexZero rs).length = rs.length := by
  refine ⟨?_, bSpecFacets_length rs vertexZero⟩
  unfold parseBinary
  rw [if_neg (by simp [List.length_append, h80])]
  rw [List.drop_left' h80]
  rw [if_neg (by simp [List.length_append, enc4])]
  rw [readF32_enc4, Nat.mod_eq_of_lt hn]
  exact parseBinaryLoop_enc rs trail vertexZero hok

/-- C10 witness: the one-record input with three junk bytes appended
still decodes to exactly its one facet. -/
theorem c10_witness :
    parseBinary w10Input = .ok (bSpecFacets vertexZero [wRec]) ∧
    (bSpecFacets vertexZero [wRec]).length = 1 := by
  have h := c10_trailing_ignored (List.replicate 80 0) [wRec] [7, 7, 7]
    (by simp) (by decide) (by decide)
  exact ⟨h.1, h.2⟩

/-! ### Claim theorems: dispatcher and ASCII lexer -/

/-- C1: for every buffer of at least 5 bytes starting with `"solid"`
whose ASCII parse (of the bytes after offset 5) fails, `ParseSTLBytes`
attempts the binary decode of the entire original buffer: if it succeeds
its facets are returned (the ASCII error is discarded), and if it also
fails the original ASCII error — not the binary one — is returned. -/
theorem c1_dispatch_fallback (stl : List Nat) (e : StlError)
    (h5 : 5 ≤ stl.length) (hsolid : stl.take 5 = kwSolid)
    (hA : parseASCII (stl.drop 5) = .err e) :
    (∀ fs, parseBinary stl = .ok fs → ParseSTLBytes stl = .ok fs) ∧
    (∀ e2, parseBinary stl = .error e2 → ParseSTLBytes stl = .err e) := by
  unfold ParseSTLBytes
  rw [if_neg (by omega), if_pos hsolid, hA]
  constructor
  · intro fs hb; rw [hb]
  · intro e2 hb; rw [hb]

/-- C1 witness: on `w1aInput` the ASCII attempt fails and the binary
fallback over the whole buffer (the `"solid"` bytes serving as header
text) yields one facet; on `w1bInput` both fail and the ASCII error
`w1Msg` is surfaced, not the binary header-truncation error. -/
theorem c1_witness :
    ParseSTLBytes w1aInput = .ok [zeroFacet] ∧
    ParseSTLBytes w1bInput = .err (.lexError w1Msg) := by
  constructor
  · exact (c1_dispatch_fallback w1aInput (.lexError w1Msg)
      (by decide) rfl rfl).1 [zeroFacet] rfl
  · exact (c1_dispatch_fallback w1bInput (.lexError w1Msg)
      (by decide) rfl rfl).2 .binHeader rfl

/-- C4 (documents the code bug): on a nameless solid whose first
identifier run is exactly `facet`, the header state takes its special
branch — second conjunct: it leaves the mesh name unset and moves to the
facet state, but with the cursor already past the consumed keyword
(`pos = 5`, only `l.ignore()` is called, no rewind) — so the facet state,
expecting the keyword `facet` again, records a fatal error at offset 6
and the whole parse fails (first conjunct; the binary fallback fails too,
so the ASCII error surfaces) instead of parsing to its facets as the
claim states. -/
theorem c4_nameless_solid_fails :
    ParseSTLBytes c4Input = .err (.lexError c4Msg) ∧
    asciiFileHeader (initCtx (c4Input.drop 5)) =
      .ok ({ initCtx (c4Input.drop 5) with start := 5, pos := 5 },
           some .facet, none) :=
  ⟨rfl, rfl⟩

/-- C5 counterexample: the 5-byte buffer `"solid"` routes to the ASCII
lexer with an empty remainder; `acceptRun` backs `pos` up to -1 and the
next `next()` indexes `input[-1]`, a runtime crash — the lexer is not
total. -/
theorem c5_counterexample : ParseSTLBytes (strBytes ("solid")) = .panic := rfl

theorem kwFacet_len : kwFacet.length = 5 := rfl
theorem kwNormal_len : kwNormal.length = 6 := rfl
theorem kwOuter_len : kwOuter.length = 5 := rfl
theorem kwLoop_len : kwLoop.length = 4 := rfl
theorem kwVertex_len : kwVertex.length = 6 := rfl
theorem kwEndloop_len : kwEndloop.length = 7 := rfl
theorem kwEndfacet_len : kwEndfacet.length = 8 := rfl

/-- `accept` leaves the input and the recorded error unchanged. -/
theorem accept_same {valid : List Nat} {c c1 : LexCtx} {b : Bool}
    (h : accept valid c = .ok (c1, b)) :
    c1.input = c.input ∧ c1.err = c.err := by
  unfold accept at h
  dsimp only at h
  repeat' split at h
  all_goals simp_all
  all_goals (rw [← h.1]; exact ⟨rfl, rfl⟩)

/-- `acceptRun` leaves the input and the recorded error unchanged. -/
theorem acceptRun_same {valid : List Nat} {c c1 : LexCtx} {b : Bool}
    (h : acceptRun valid c = .ok (c1, b)) :
    c1.input = c.input ∧ c1.err = c.err := by
  unfold acceptRun at h
  dsimp only at h
  repeat' split at h
  all_goals simp_all
  all_goals (rw [← h.1]; exact ⟨rfl, rfl⟩)

/-- `acceptKeyword` leaves the input and the recorded error unchanged. -/
theorem acceptKeyword_same {kw : List Nat} {c c1 : LexCtx} {b : Bool}
    (h : acceptKeyword kw c = .ok (c1, b)) :
    c1.input = c.input ∧ c1.err = c.err := by
  unfold acceptKeyword at h
  repeat' split at h
  all_goals simp_all
  all_goals (rw [← h.1]; exact ⟨rfl, rfl⟩)

/-- A failed `acceptKeyword` leaves the context untouched, and the
keyword-length slice of the input at the cursor exists but differs from
the keyword. -/
theorem acceptKeyword_false {kw : List Nat} {c c1 : LexCtx}
    (h : acceptKeyword kw c = .ok (c1, false)) :
    c1 = c ∧ ∃ seg, sliceB c.input c.pos (c.pos + kw.length) = .ok seg ∧ seg ≠ kw := by
  unfold acceptKeyword at h
  cases hs : sliceB c.input c.pos (c.pos + kw.length) with
  | error e => rw [hs] at h; simp at h
  | ok seg =>
    rw [hs] at h
    dsimp only at h
    by_cases hseg : seg = kw
    · rw [if_pos hseg] at h; simp at h
    · rw [if_neg hseg] at h
      simp only [Except.ok.injEq, Prod.mk.injEq] at h
      exact ⟨h.1.symm, seg, rfl, hseg⟩

/-- `acceptNumber` leaves the input and the recorded error unchanged. -/
theorem acceptNumber_same {c c1 : LexCtx} {b : Bool}
    (h : acceptNumber c = .ok (c1, b)) :
    c1.input = c.input ∧ c1.err = c.err := by
  unfold acceptNumber at h
  cases h1 : accept plusMinus c with
  | error e => rw [h1] at h; simp at h
  | ok p1 =>
  obtain ⟨ca, b1⟩ := p1
  rw [h1] at h
  dsimp only at h
  have s1 := accept_same h1
  cases h2 : acceptRun floatDigits ca with
  | error e => rw [h2] at h; simp at h
  | ok p2 =>
  obtain ⟨cb, d1⟩ := p2
  rw [h2] at h
  have s2 := acceptRun_same h2
  cases d1 with
  | false =>
    dsimp only at h
    simp only [Except.ok.injEq, Prod.mk.injEq] at h
    rw [← h.1]
    exact ⟨s2.1.trans s1.1, s2.2.trans s1.2⟩
  | true =>
    dsimp only at h
    cases h3 : accept expMarks cb with
    | error e => rw [h3] at h; simp at h
    | ok p3 =>
    obtain ⟨cc, e1⟩ := p3
    rw [h3] at h
    have s3 := accept_same h3
    cases e1 with
    | false =>
      dsimp only at h
      simp only [Except.ok.injEq, Prod.mk.injEq] at h
      rw [← h.1]
      exact ⟨s3.1.trans (s2.1.trans s1.1), s3.2.trans (s2.2.trans s1.2)⟩
    | true =>
      dsimp only at h
      cases h4 : accept plusMinus cc with
      | error e => rw [h4] at h; simp at h
      | ok p4 =>
      obtain ⟨cd, b2⟩ := p4
      rw [h4] at h
      dsimp only at h
      have s4 := accept_same h4
      cases h5 : acceptRun floatDigits cd with
      | error e => rw [h5] at h; simp at h
      | ok p5 =>
      obtain ⟨ce, d2⟩ := p5
      rw [h5] at h
      dsimp only at h
      have s5 := acceptRun_same h5
      simp only [Except.ok.injEq, Prod.mk.injEq] at h
      rw [← h.1]
      exact ⟨s5.1.trans (s4.1.trans (s3.1.trans (s2.1.trans s1.1))),
             s5.2.trans (s4.2.trans (s3.2.trans (s2.2.trans s1.2)))⟩

theorem kwFacet_lenI : ((kwFacet.length : Nat) : Int) = 5 := rfl
theorem kwNormal_lenI : ((kwNormal.length : Nat) : Int) = 6 := rfl
theorem kwOuter_lenI : ((kwOuter.length : Nat) : Int) = 5 := rfl
theorem kwLoop_lenI : ((kwLoop.length : Nat) : Int) = 4 := rfl
theorem kwVertex_lenI : ((kwVertex.length : Nat) : Int) = 6 := rfl
theorem kwEndloop_lenI : ((kwEndloop.length : Nat) : Int) = 7 := rfl
theorem kwEndfacet_lenI : ((kwEndfacet.length : Nat) : Int) = 8 := rfl

/-- A successful `vertexNumber` leaves the input and the recorded error
unchanged. -/
theorem vertexNumber_inr {c c2 : LexCtx} {tok : List Nat}
    (h : vertexNumber c = .ok (.inr (c2, tok))) :
    c2.input = c.input ∧ c2.err = c.err := by
  unfold vertexNumber at h
  cases h1 : acceptRun spaces c with
  | error e => rw [h1] at h; simp at h
  | ok p1 =>
  obtain ⟨ca, b1⟩ := p1
  rw [h1] at h
  dsimp only at h
  have s1 := acceptRun_same h1
  cases h2 : acceptNumber ca with
  | error e => rw [h2] at h; simp at h
  | ok p2 =>
  obtain ⟨cb, nb⟩ := p2
  rw [h2] at h
  have s2 := acceptNumber_same h2
  cases nb with
  | false =>
    dsimp only at h
    cases h3 : sliceB cb.input cb.pos (cb.pos + 1) with
    | error e => rw [h3] at h; simp at h
    | ok saw => rw [h3] at h; simp at h
  | true =>
    dsimp only at h
    cases h3 : sliceB cb.input ca.pos cb.pos with
    | error e => rw [h3] at h; simp at h
    | ok tk =>
      rw [h3] at h
      dsimp only at h
      by_cases hf : parseFloatOk tk = true
      · rw [if_pos hf] at h
        simp only [Except.ok.injEq, Sum.inr.injEq, Prod.mk.injEq] at h
        rw [← h.1]
        exact ⟨s2.1.trans s1.1, s2.2.trans s1.2⟩
      · rw [if_neg hf] at h
        simp at h

/-- A `vertexNumber` call that records a fatal error produces an
accurate message: the expected-number excerpt is the input byte at the
recorded offset, or the conversion error carries a rejected literal. -/
theorem vertexNumber_inl {c ce : LexCtx}
    (h : vertexNumber c = .ok (.inl ce)) :
    ce.input = c.input ∧
    (∀ m, ce.err = some m → msgAccurate c.input m) := by
  unfold vertexNumber at h
  cases h1 : acceptRun spaces c with
  | error e => rw [h1] at h; simp at h
  | ok p1 =>
  obtain ⟨ca, b1⟩ := p1
  rw [h1] at h
  dsimp only at h
  have s1 := acceptRun_same h1
  cases h2 : acceptNumber ca with
  | error e => rw [h2] at h; simp at h
  | ok p2 =>
  obtain ⟨cb, nb⟩ := p2
  rw [h2] at h
  have s2 := acceptNumber_same h2
  have hin : cb.input = c.input := s2.1.trans s1.1
  cases nb with
  | false =>
    dsimp only at h
    cases h3 : sliceB cb.input cb.pos (cb.pos + 1) with
    | error e => rw [h3] at h; simp at h
    | ok saw =>
      rw [h3] at h
      simp only [Except.ok.injEq, Sum.inl.injEq] at h
      rw [← h]
      refine ⟨hin, ?_⟩
      intro m hm
      simp only [setErr, Option.some.injEq] at hm
      subst hm
      simp only [msgAccurate]
      rw [← hin]
      exact h3
  | true =>
    dsimp only at h
    cases h3 : sliceB cb.input ca.pos cb.pos with
    | error e => rw [h3] at h; simp at h
    | ok tk =>
      rw [h3] at h
      dsimp only at h
      by_cases hf : parseFloatOk tk = true
      · rw [if_pos hf] at h; simp at h
      · rw [if_neg hf] at h
        simp only [Except.ok.injEq, Sum.inl.injEq] at h
        rw [← h]
        refine ⟨hin, ?_⟩
        intro m hm
        simp only [setErr, Option.some.injEq] at hm
        subst hm
        simp only [msgAccurate]
        simp only [Bool.not_eq_true] at hf
        exact hf

/-- A successful `facetNumber` leaves the input and the recorded error
unchanged. -/
theorem facetNumber_inr {c c2 : LexCtx} {tok : List Nat}
    (h : facetNumber c = .ok (.inr (c2, tok))) :
    c2.input = c.input ∧ c2.err = c.err := by
  unfold facetNumber at h
  cases h1 : acceptRun spaces c with
  | error e => rw [h1] at h; simp at h
  | ok p1 =>
  obtain ⟨ca, b1⟩ := p1
  rw [h1] at h
  dsimp only at h
  have s1 := acceptRun_same h1
  cases h2 : acceptNumber { ca with start := ca.pos } with
  | error e => rw [h2] at h; simp at h
  | ok p2 =>
  obtain ⟨cb, nb⟩ := p2
  rw [h2] at h
  have s2 := acceptNumber_same h2
  cases nb with
  | false =>
    dsimp only at h
    cases h3 : sliceB cb.input cb.pos (cb.pos + 1) with
    | error e => rw [h3] at h; simp at h
    | ok saw => rw [h3] at h; simp at h
  | true =>
    dsimp only at h
    cases h3 : sliceB cb.input cb.start cb.pos with
    | error e => rw [h3] at h; simp at h
    | ok tk =>
      rw [h3] at h
      dsimp only at h
      by_cases hf : parseFloatOk tk = true
      · rw [if_pos hf] at h
        simp only [Except.ok.injEq, Sum.inr.injEq, Prod.mk.injEq] at h
        rw [← h.1]
        exact ⟨s2.1.trans s1.1, s2.2.trans s1.2⟩
      · rw [if_neg hf] at h
        simp at h

/-- A `facetNumber` call that records a fatal error produces an accurate
message. -/
theorem facetNumber_inl {c ce : LexCtx}
    (h : facetNumber c = .ok (.inl ce)) :
    ce.input = c.input ∧
    (∀ m, ce.err = some m → msgAccurate c.input m) := by
  unfold facetNumber at h
  cases h1 : acceptRun spaces c with
  | error e => rw [h1] at h; simp at h
  | ok p1 =>
  obtain ⟨ca, b1⟩ := p1
  rw [h1] at h
  dsimp only at h
  have s1 := acceptRun_same h1
  cases h2 : acceptNumber { ca with start := ca.pos } with
  | error e => rw [h2] at h; simp at h
  | ok p2 =>
  obtain ⟨cb, nb⟩ := p2
  rw [h2] at h
  have s2 := acceptNumber_same h2
  have hin : cb.input = c.input := s2.1.trans s1.1
  cases nb with
  | false =>
    dsimp only at h
    cases h3 : sliceB cb.input cb.pos (cb.pos + 1) with
    | error e => rw [h3] at h; simp at h
    | ok saw =>
      rw [h3] at h
      simp only [Except.ok.injEq, Sum.inl.injEq] at h
      rw [← h]
      refine ⟨hin, ?_⟩
      intro m hm
      simp only [setErr, Option.some.injEq] at hm
      subst hm
      simp only [msgAccurate]
      rw [← hin]
      exact h3
  | true =>
    dsimp only at h
    cases h3 : sliceB cb.input cb.start cb.pos with
    | error e => rw [h3] at h; simp at h
    | ok tk =>
      rw [h3] at h
      dsimp only at h
      by_cases hf : parseFloatOk tk = true
      · rw [if_pos hf] at h; simp at h
      · rw [if_neg hf] at h
        simp only [Except.ok.injEq, Sum.inl.injEq] at h
        rw [← h]
        refine ⟨hin, ?_⟩
        intro m hm
        simp only [setErr, Option.some.injEq] at hm
        subst hm
        simp only [msgAccurate]
        simp only [Bool.not_eq_true] at hf
        exact hf

/-- A successful `oneVertex` leaves the input and the recorded error
unchanged. -/
theorem oneVertex_inr {c c2 : LexCtx} {v : Vertex}
    (h : oneVertex c = .ok (.inr (c2, v))) :
    c2.input = c.input ∧ c2.err = c.err := by
  unfold oneVertex at h
  cases h1 : acceptRun spaces c with
  | error e => rw [h1] at h; simp at h
  | ok p1 =>
  obtain ⟨ca, b1⟩ := p1
  rw [h1] at h
  dsimp only at h
  have s1 := acceptRun_same h1
  cases h2 : acceptKeyword kwVertex ca with
  | error e => rw [h2] at h; simp at h
  | ok p2 =>
  obtain ⟨cb, kb⟩ := p2
  rw [h2] at h
  have s2 := acceptKeyword_same h2
  cases kb with
  | false =>
    dsimp only at h
    cases h3 : sliceB cb.input cb.pos (cb.pos + 6) with
    | error e => rw [h3] at h; simp at h
    | ok saw => rw [h3] at h; simp at h
  | true =>
    dsimp only at h
    cases h4 : vertexNumber cb with
    | error e => rw [h4] at h; simp at h
    | ok s4 =>
    rw [h4] at h
    cases s4 with
    | inl ce => simp at h
    | inr p4 =>
    obtain ⟨cc, t1⟩ := p4
    dsimp only at h
    have n1 := vertexNumber_inr h4
    cases h5 : vertexNumber cc with
    | error e => rw [h5] at h; simp at h
    | ok s5 =>
    rw [h5] at h
    cases s5 with
    | inl ce => simp at h
    | inr p5 =>
    obtain ⟨cd, t2⟩ := p5
    dsimp only at h
    have n2 := vertexNumber_inr h5
    cases h6 : vertexNumber cd with
    | error e => rw [h6] at h; simp at h
    | ok s6 =>
    rw [h6] at h
    cases s6 with
    | inl ce => simp at h
    | inr p6 =>
    obtain ⟨cf, t3⟩ := p6
    dsimp only at h
    have n3 := vertexNumber_inr h6
    simp only [Except.ok.injEq, Sum.inr.injEq, Prod.mk.injEq] at h
    rw [← h.1]
    exact ⟨n3.1.trans (n2.1.trans (n1.1.trans (s2.1.trans s1.1))),
           n3.2.trans (n2.2.trans (n1.2.trans (s2.2.trans s1.2)))⟩

/-- A `oneVertex` call that records a fatal error produces an accurate
message: a keyword mismatch carries the true offset and the six
offending bytes (differing from `vertex`), or the inner number routine's
accurate message is propagated. -/
theorem oneVertex_inl {c ce : LexCtx}
    (h : oneVertex c = .ok (.inl ce)) :
    ce.input = c.input ∧ (∀ m, ce.err = some m → msgAccurate c.input m) := by
  unfold oneVertex at h
  cases h1 : acceptRun spaces c with
  | error e => rw [h1] at h; simp at h
  | ok p1 =>
  obtain ⟨ca, b1⟩ := p1
  rw [h1] at h
  dsimp only at h
  have s1 := acceptRun_same h1
  cases h2 : acceptKeyword kwVertex ca with
  | error e => rw [h2] at h; simp at h
  | ok p2 =>
  obtain ⟨cb, kb⟩ := p2
  rw [h2] at h
  cases kb with
  | false =>
    dsimp only at h
    obtain ⟨hcba, seg, hseg, hsegne⟩ := acceptKeyword_false h2
    subst hcba
    cases h3 : sliceB cb.input cb.pos (cb.pos + 6) with
    | error e => rw [h3] at h; simp at h
    | ok saw =>
      rw [h3] at h
      simp only [Except.ok.injEq, Sum.inl.injEq] at h
      subst h
      refine ⟨s1.1, ?_⟩
      intro m hm
      simp only [setErr, Option.some.injEq] at hm
      subst hm
      rw [kwVertex_lenI] at hseg
      rw [h3] at hseg
      simp only [Except.ok.injEq] at hseg
      subst hseg
      simp only [msgAccurate, kwVertex_lenI]
      rw [← s1.1]
      exact ⟨h3, hsegne⟩
  | true =>
    dsimp only at h
    have s2 := acceptKeyword_same h2
    have hib : cb.input = c.input := s2.1.trans s1.1
    cases h4 : vertexNumber cb with
    | error e => rw [h4] at h; simp at h
    | ok s4 =>
    rw [h4] at h
    cases s4 with
    | inl ce1 =>
      dsimp only at h
      simp only [Except.ok.injEq, Sum.inl.injEq] at h
      subst h
      have hv := vertexNumber_inl h4
      refine ⟨hv.1.trans hib, ?_⟩
      intro m hm
      have := hv.2 m hm
      rwa [hib] at this
    | inr p4 =>
    obtain ⟨cc, t1⟩ := p4
    dsimp only at h
    have n1 := vertexNumber_inr h4
    have hic : cc.input = c.input := n1.1.trans hib
    cases h5 : vertexNumber cc with
    | error e => rw [h5] at h; simp at h
    | ok s5 =>
    rw [h5] at h
    cases s5 with
    | inl ce1 =>
      dsimp only at h
      simp only [Except.ok.injEq, Sum.inl.injEq] at h
      subst h
      have hv := vertexNumber_inl h5
      refine ⟨hv.1.trans hic, ?_⟩
      intro m hm
      have := hv.2 m hm
      rwa [hic] at this
    | inr p5 =>
    obtain ⟨cd, t2⟩ := p5
    dsimp only at h
    have n2 := vertexNumber_inr h5
    have hid : cd.input = c.input := n2.1.trans hic
    cases h6 : vertexNumber cd with
    | error e => rw [h6] at h; simp at h
    | ok s6 =>
    rw [h6] at h
    cases s6 with
    | inl ce1 =>
      dsimp only at h
      simp only [Except.ok.injEq, Sum.inl.injEq] at h
      subst h
      have hv := vertexNumber_inl h6
      refine ⟨hv.1.trans hid, ?_⟩
      intro m hm
      have := hv.2 m hm
      rwa [hid] at this
    | inr p6 =>
      obtain ⟨cf, t3⟩ := p6
      dsimp only at h
      simp at h

/-- The header state never records an error (it has no `errorf` site)
and leaves the input unchanged. -/
theorem asciiFileHeader_spec (c c1 : LexCtx) (st1 : Option LexState)
    (em : Option Facet) (h : asciiFileHeader c = .ok (c1, st1, em)) :
    c1.input = c.input ∧
    (c.err = none → ∀ m, c1.err = some m →
      st1 = none ∧ em = none ∧ msgAccurate c.input m) := by
  unfold asciiFileHeader at h
  cases h1 : acceptRun spaces c with
  | error e => rw [h1] at h; simp at h
  | ok p1 =>
  obtain ⟨ca, b1⟩ := p1
  rw [h1] at h
  dsimp only at h
  have s1 := acceptRun_same h1
  cases h2 : acceptRun ident ca with
  | error e => rw [h2] at h; simp at h
  | ok p2 =>
  obtain ⟨cb, b2⟩ := p2
  rw [h2] at h
  dsimp only at h
  have s2 := acceptRun_same h2
  cases h3 : sliceB cb.input cb.start cb.pos with
  | error e => rw [h3] at h; simp at h
  | ok nm =>
    rw [h3] at h
    dsimp only at h
    by_cases hnm : nm = kwFacet
    · rw [if_pos hnm] at h
      simp only [Except.ok.injEq, Prod.mk.injEq] at h
      obtain ⟨e1, e2, e3⟩ := h
      subst e1
      subst e2
      subst e3
      refine ⟨s2.1.trans s1.1, ?_⟩
      intro hc m hm
      have hm2 : cb.err = some m := hm
      rw [s2.2, s1.2, hc] at hm2
      simp at hm2
    · rw [if_neg hnm] at h
      simp only [Except.ok.injEq, Prod.mk.injEq] at h
      obtain ⟨e1, e2, e3⟩ := h
      subst e1
      subst e2
      subst e3
      refine ⟨s2.1.trans s1.1, ?_⟩
      intro hc m hm
      have hm2 : cb.err = some m := hm
      rw [s2.2, s1.2, hc] at hm2
      simp at hm2

/-- Every mismatch the facet state can record — at the expected `facet`,
`normal`, `outer` or `loop` keyword, or at one of the three normal
components — terminates the machine (nil state, no emission) with an
accurate message; the non-error transitions leave the error empty. -/
theorem asciiFacet_spec (c c1 : LexCtx) (st1 : Option LexState)
    (em : Option Facet) (h : asciiFacet c = .ok (c1, st1, em)) :
    c1.input = c.input ∧
    (c.err = none → ∀ m, c1.err = some m →
      st1 = none ∧ em = none ∧ msgAccurate c.input m) := by
  unfold asciiFacet at h
  cases h1 : acceptRun spaces c with
  | error e => rw [h1] at h; simp at h
  | ok p1 =>
  obtain ⟨ca, b1⟩ := p1
  rw [h1] at h
  dsimp only at h
  have s1 := acceptRun_same h1
  cases h2 : acceptKeyword kwFacet ca with
  | error e => rw [h2] at h; simp at h
  | ok p2 =>
  obtain ⟨cb, kb⟩ := p2
  rw [h2] at h
  have s2 := acceptKeyword_same h2
  have hib : cb.input = c.input := s2.1.trans s1.1
  have heb : cb.err = c.err := s2.2.trans s1.2
  cases kb with
  | false =>
    dsimp only at h
    obtain ⟨hcba, seg, hseg, hsegne⟩ := acceptKeyword_false h2
    subst hcba
    cases h3 : acceptKeyword kwEndsolid cb with
    | error e => rw [h3] at h; simp at h
    | ok p3 =>
    obtain ⟨cc, eb⟩ := p3
    rw [h3] at h
    have s3 := acceptKeyword_same h3
    cases eb with
    | true =>
      dsimp only at h
      simp only [Except.ok.injEq, Prod.mk.injEq] at h
      obtain ⟨e1, e2, e3⟩ := h
      subst e1
      subst e2
      subst e3
      refine ⟨s3.1.trans hib, ?_⟩
      intro hc m hm
      rw [s3.2, heb, hc] at hm
      simp at hm
    | false =>
      dsimp only at h
      obtain ⟨hccb, -⟩ := acceptKeyword_false h3
      subst hccb
      cases h4 : sliceB cc.input cc.pos (cc.pos + 5) with
      | error e => rw [h4] at h; simp at h
      | ok saw =>
        rw [h4] at h
        simp only [Except.ok.injEq, Prod.mk.injEq] at h
        obtain ⟨e1, e2, e3⟩ := h
        subst e1
        subst e2
        subst e3
        refine ⟨hib, ?_⟩
        intro hc m hm
        simp only [setErr, Option.some.injEq] at hm
        subst hm
        refine ⟨rfl, rfl, ?_⟩
        rw [kwFacet_lenI] at hseg
        rw [h4] at hseg
        simp only [Except.ok.injEq] at hseg
        subst hseg
        simp only [msgAccurate, kwFacet_lenI]
        rw [← hib]
        exact ⟨h4, hsegne⟩
  | true =>
    dsimp only at h
    cases h3 : acceptRun spaces cb with
    | error e => rw [h3] at h; simp at h
    | ok p3 =>
    obtain ⟨cd, b3⟩ := p3
    rw [h3] at h
    dsimp only at h
    have s3 := acceptRun_same h3
    have hid : cd.input = c.input := s3.1.trans hib
    have hed : cd.err = c.err := s3.2.trans heb
    cases h4 : acceptKeyword kwNormal cd with
    | error e => rw [h4] at h; simp at h
    | ok p4 =>
    obtain ⟨ce, nb⟩ := p4
    rw [h4] at h
    have s4 := acceptKeyword_same h4
    have hie : ce.input = c.input := s4.1.trans hid
    have hee : ce.err = c.err := s4.2.trans hed
    cases nb with
    | false =>
      dsimp only at h
      obtain ⟨hced, seg, hseg, hsegne⟩ := acceptKeyword_false h4
      subst hced
      cases h5 : sliceB ce.input ce.pos (ce.pos + 6) with
      | error e => rw [h5] at h; simp at h
      | ok saw =>
        rw [h5] at h
        simp only [Except.ok.injEq, Prod.mk.injEq] at h
        obtain ⟨e1, e2, e3⟩ := h
        subst e1
        subst e2
        subst e3
        refine ⟨hie, ?_⟩
        intro hc m hm
        simp only [setErr, Option.some.injEq] at hm
        subst hm
        refine ⟨rfl, rfl, ?_⟩
        rw [kwNormal_lenI] at hseg
        rw [h5] at hseg
        simp only [Except.ok.injEq] at hseg
        subst hseg
        simp only [msgAccurate, kwNormal_lenI]
        rw [← hie]
        exact ⟨h5, hsegne⟩
    | true =>
      dsimp only at h
      cases h5 : facetNumber ce with
      | error e => rw [h5] at h; simp at h
      | ok s5 =>
      rw [h5] at h
      cases s5 with
      | inl ce1 =>
        dsimp only at h
        simp only [Except.ok.injEq, Prod.mk.injEq] at h
        obtain ⟨e1, e2, e3⟩ := h
        subst e1
        subst e2
        subst e3
        have hnum := facetNumber_inl h5
        refine ⟨hnum.1.trans hie, ?_⟩
        intro hc m hm
        refine ⟨rfl, rfl, ?_⟩
        have hacc := hnum.2 m hm
        rwa [hie] at hacc
      | inr p5 =>
      obtain ⟨cf, t1⟩ := p5
      dsimp only at h
      have n1 := facetNumber_inr h5
      have hif : cf.input = c.input := n1.1.trans hie
      have hef : cf.err = c.err := n1.2.trans hee
      cases h6 : facetNumber cf with
      | error e => rw [h6] at h; simp at h
      | ok s6 =>
      rw [h6] at h
      cases s6 with
      | inl ce1 =>
        dsimp only at h
        simp only [Except.ok.injEq, Prod.mk.injEq] at h
        obtain ⟨e1, e2, e3⟩ := h
        subst e1
        subst e2
        subst e3
        have hnum := facetNumber_inl h6
        refine ⟨hnum.1.trans hif, ?_⟩
        intro hc m hm
        refine ⟨rfl, rfl, ?_⟩
        have hacc := hnum.2 m hm
        rwa [hif] at hacc
      | inr p6 =>
      obtain ⟨cg, t2⟩ := p6
      dsimp only at h
      have n2 := facetNumber_inr h6
      have hig : cg.input = c.input := n2.1.trans hif
      have heg : cg.err = c.err := n2.2.trans hef
      cases h7 : facetNumber cg with
      | error e => rw [h7] at h; simp at h
      | ok s7 =>
      rw [h7] at h
      cases s7 with
      | inl ce1 =>
        dsimp only at h
        simp only [Except.ok.injEq, Prod.mk.injEq] at h
        obtain ⟨e1, e2, e3⟩ := h
        subst e1
        subst e2
        subst e3
        have hnum := facetNumber_inl h7
        refine ⟨hnum.1.trans hig, ?_⟩
        intro hc m hm
        refine ⟨rfl, rfl, ?_⟩
        have hacc := hnum.2 m hm
        rwa [hig] at hacc
      | inr p7 =>
      obtain ⟨ch, t3⟩ := p7
      dsimp only at h
      have n3 := facetNumber_inr h7
      have hih : ch.input = c.input := n3.1.trans hig
      have heh : ch.err = c.err := n3.2.trans heg
      cases h8 : acceptRun spaces ch with
      | error e => rw [h8] at h; simp at h
      | ok p8 =>
      obtain ⟨ci, b8⟩ := p8
      rw [h8] at h
      dsimp only at h
      have s8 := acceptRun_same h8
      have hii : ci.input = c.input := s8.1.trans hih
      have hei : ci.err = c.err := s8.2.trans heh
      cases h9 : acceptKeyword kwOuter ci with
      | error e => rw [h9] at h; simp at h
      | ok p9 =>
      obtain ⟨cj, ob⟩ := p9
      rw [h9] at h
      have s9 := acceptKeyword_same h9
      have hij : cj.input = c.input := s9.1.trans hii
      have hej : cj.err = c.err := s9.2.trans hei
      cases ob with
      | false =>
        dsimp only at h
        obtain ⟨hcji, seg, hseg, hsegne⟩ := acceptKeyword_false h9
        subst hcji
        cases h10 : sliceB cj.input cj.pos (cj.pos + 5) with
        | error e => rw [h10] at h; simp at h
        | ok saw =>
          rw [h10] at h
          simp only [Except.ok.injEq, Prod.mk.injEq] at h
          obtain ⟨e1, e2, e3⟩ := h
          subst e1
          subst e2
          subst e3
          refine ⟨hij, ?_⟩
          intro hc m hm
          simp only [setErr, Option.some.injEq] at hm
          subst hm
          refine ⟨rfl, rfl, ?_⟩
          rw [kwOuter_lenI] at hseg
          rw [h10] at hseg
          simp only [Except.ok.injEq] at hseg
          subst hseg
          simp only [msgAccurate, kwOuter_lenI]
          rw [← hij]
          exact ⟨h10, hsegne⟩
      | true =>
        dsimp only at h
        cases h10 : acceptRun spaces cj with
        | error e => rw [h10] at h; simp at h
        | ok p10 =>
        obtain ⟨ck, b10⟩ := p10
        rw [h10] at h
        dsimp only at h
        have s10 := acceptRun_same h10
        have hik : ck.input = c.input := s10.1.trans hij
        have hek : ck.err = c.err := s10.2.trans hej
        cases h11 : acceptKeyword kwLoop ck with
        | error e => rw [h11] at h; simp at h
        | ok p11 =>
        obtain ⟨cl, lb⟩ := p11
        rw [h11] at h
        have s11 := acceptKeyword_same h11
        have hil : cl.input = c.input := s11.1.trans hik
        have hel : cl.err = c.err := s11.2.trans hek
        cases lb with
        | false =>
          dsimp only at h
          obtain ⟨hclk, seg, hseg, hsegne⟩ := acceptKeyword_false h11
          subst hclk
          cases h12 : sliceB cl.input cl.pos (cl.pos + 4) with
          | error e => rw [h12] at h; simp at h
          | ok saw =>
            rw [h12] at h
            simp only [Except.ok.injEq, Prod.mk.injEq] at h
            obtain ⟨e1, e2, e3⟩ := h
            subst e1
            subst e2
            subst e3
            refine ⟨hil, ?_⟩
            intro hc m hm
            simp only [setErr, Option.some.injEq] at hm
            subst hm
            refine ⟨rfl, rfl, ?_⟩
            rw [kwLoop_lenI] at hseg
            rw [h12] at hseg
            simp only [Except.ok.injEq] at hseg
            subst hseg
            simp only [msgAccurate, kwLoop_lenI]
            rw [← hil]
            exact ⟨h12, hsegne⟩
        | true =>
          dsimp only at h
          simp only [Except.ok.injEq, Prod.mk.injEq] at h
          obtain ⟨e1, e2, e3⟩ := h
          subst e1
          subst e2
          subst e3
          refine ⟨hil, ?_⟩
          intro hc m hm
          have hm2 : cl.err = some m := hm
          rw [hel, hc] at hm2
          simp at hm2

/-- Every mismatch the vertex state can record — at an expected `vertex`,
`endloop` or `endfacet` keyword, or at one of the nine vertex
components — terminates the machine (nil state, no emission) with an
accurate message; the non-error transitions leave the error empty. -/
theorem asciiVertex_spec (c c1 : LexCtx) (st1 : Option LexState)
    (em : Option Facet) (h : asciiVertex c = .ok (c1, st1, em)) :
    c1.input = c.input ∧
    (c.err = none → ∀ m, c1.err = some m →
      st1 = none ∧ em = none ∧ msgAccurate c.input m) := by
  unfold asciiVertex at h
  cases h1 : oneVertex c with
  | error e => rw [h1] at h; simp at h
  | ok s1 =>
  rw [h1] at h
  cases s1 with
  | inl ce =>
    dsimp only at h
    simp only [Except.ok.injEq, Prod.mk.injEq] at h
    obtain ⟨e1, e2, e3⟩ := h
    subst e1
    subst e2
    subst e3
    have hv := oneVertex_inl h1
    refine ⟨hv.1, ?_⟩
    intro hc m hm
    exact ⟨rfl, rfl, hv.2 m hm⟩
  | inr p1 =>
  obtain ⟨ca, v1⟩ := p1
  dsimp only at h
  have n1 := oneVertex_inr h1
  cases h2 : oneVertex ca with
  | error e => rw [h2] at h; simp at h
  | ok s2 =>
  rw [h2] at h
  cases s2 with
  | inl ce =>
    dsimp only at h
    simp only [Except.ok.injEq, Prod.mk.injEq] at h
    obtain ⟨e1, e2, e3⟩ := h
    subst e1
    subst e2
    subst e3
    have hv := oneVertex_inl h2
    refine ⟨hv.1.trans n1.1, ?_⟩
    intro hc m hm
    refine ⟨rfl, rfl, ?_⟩
    have hacc := hv.2 m hm
    rwa [n1.1] at hacc
  | inr p2 =>
  obtain ⟨cb, v2⟩ := p2
  dsimp only at h
  have n2 := oneVertex_inr h2
  have hib : cb.input = c.input := n2.1.trans n1.1
  have heb : cb.err = c.err := n2.2.trans n1.2
  cases h3 : oneVertex cb with
  | error e => rw [h3] at h; simp at h
  | ok s3 =>
  rw [h3] at h
  cases s3 with
  | inl ce =>
    dsimp only at h
    simp only [Except.ok.injEq, Prod.mk.injEq] at h
    obtain ⟨e1, e2, e3⟩ := h
    subst e1
    subst e2
    subst e3
    have hv := oneVertex_inl h3
    refine ⟨hv.1.trans hib, ?_⟩
    intro hc m hm
    refine ⟨rfl, rfl, ?_⟩
    have hacc := hv.2 m hm
    rwa [hib] at hacc
  | inr p3 =>
  obtain ⟨cc, v3⟩ := p3
  dsimp only at h
  have n3 := oneVertex_inr h3
  have hic : cc.input = c.input := n3.1.trans hib
  have hec : cc.err = c.err := n3.2.trans heb
  cases h4 : acceptRun spaces cc with
  | error e => rw [h4] at h; simp at h
  | ok p4 =>
  obtain ⟨cd, b4⟩ := p4
  rw [h4] at h
  dsimp only at h
  have s4 := acceptRun_same h4
  have hid : cd.input = c.input := s4.1.trans hic
  have hed : cd.err = c.err := s4.2.trans hec
  cases h5 : acceptKeyword kwEndloop cd with
  | error e => rw [h5] at h; simp at h
  | ok p5 =>
  obtain ⟨ce2, elb⟩ := p5
  rw [h5] at h
  have s5 := acceptKeyword_same h5
  have hie : ce2.input = c.input := s5.1.trans hid
  have hee : ce2.err = c.err := s5.2.trans hed
  cases elb with
  | false =>
    dsimp only at h
    obtain ⟨hced, seg, hseg, hsegne⟩ := acceptKeyword_false h5
    subst hced
    cases h6 : sliceB ce2.input ce2.pos (ce2.pos + 7) with
    | error e => rw [h6] at h; simp at h
    | ok saw =>
      rw [h6] at h
      simp only [Except.ok.injEq, Prod.mk.injEq] at h
      obtain ⟨e1, e2, e3⟩ := h
      subst e1
      subst e2
      subst e3
      refine ⟨hie, ?_⟩
      intro hc m hm
      simp only [setErr, Option.some.injEq] at hm
      subst hm
      refine ⟨rfl, rfl, ?_⟩
      rw [kwEndloop_lenI] at hseg
      rw [h6] at hseg
      simp only [Except.ok.injEq] at hseg
      subst hseg
      simp only [msgAccurate, kwEndloop_lenI]
      rw [← hie]
      exact ⟨h6, hsegne⟩
  | true =>
    dsimp only at h
    cases h6 : acceptRun spaces ce2 with
    | error e => rw [h6] at h; simp at h
    | ok p6 =>
    obtain ⟨cf, b6⟩ := p6
    rw [h6] at h
    dsimp only at h
    have s6 := acceptRun_same h6
    have hif : cf.input = c.input := s6.1.trans hie
    have hef : cf.err = c.err := s6.2.trans hee
    cases h7 : acceptKeyword kwEndfacet cf with
    | error e => rw [h7] at h; simp at h
    | ok p7 =>
    obtain ⟨cg, efb⟩ := p7
    rw [h7] at h
    have s7 := acceptKeyword_same h7
    have hig : cg.input = c.input := s7.1.trans hif
    have heg : cg.err = c.err := s7.2.trans hef
    cases efb with
    | false =>
      dsimp only at h
      obtain ⟨hcgf, seg, hseg, hsegne⟩ := acceptKeyword_false h7
      subst hcgf
      cases h8 : sliceB cg.input cg.pos (cg.pos + 8) with
      | error e => rw [h8] at h; simp at h
      | ok saw =>
        rw [h8] at h
        simp only [Except.ok.injEq, Prod.mk.injEq] at h
        obtain ⟨e1, e2, e3⟩ := h
        subst e1
        subst e2
        subst e3
        refine ⟨hig, ?_⟩
        intro hc m hm
        simp only [setErr, Option.some.injEq] at hm
        subst hm
        refine ⟨rfl, rfl, ?_⟩
        rw [kwEndfacet_lenI] at hseg
        rw [h8] at hseg
        simp only [Except.ok.injEq] at hseg
        subst hseg
        simp only [msgAccurate, kwEndfacet_lenI]
        rw [← hig]
        exact ⟨h8, hsegne⟩
    | true =>
      dsimp only at h
      cases h8 : acceptRun spaces cg with
      | error e => rw [h8] at h; simp at h
      | ok p8 =>
      obtain ⟨chh, b8⟩ := p8
      rw [h8] at h
      dsimp only at h
      have s8 := acceptRun_same h8
      have hih : chh.input = c.input := s8.1.trans hig
      have heh : chh.err = c.err := s8.2.trans heg
      cases hp : chh.pending with
      | none => rw [hp] at h; simp at h
      | some pf =>
        rw [hp] at h
        dsimp only at h
        simp only [Except.ok.injEq, Prod.mk.injEq] at h
        obtain ⟨e1, e2, e3⟩ := h
        subst e1
        subst e2
        subst e3
        refine ⟨hih, ?_⟩
        intro hc m hm
        have hm2 : chh.err = some m := hm
        rw [heh, hc] at hm2
        simp at hm2

/-- One state transition, for any state: the input is unchanged, and if
it records a fatal error then the machine stops (nil state), nothing is
emitted, and the error is an accurate keyword/number/conversion mismatch
message. -/
theorem lexStep_spec (c : LexCtx) (st : LexState) (c1 : LexCtx)
    (st1 : Option LexState) (em : Option Facet)
    (h : lexStep c st = .ok (c1, st1, em)) :
    c1.input = c.input ∧
    (c.err = none → ∀ m, c1.err = some m →
      st1 = none ∧ em = none ∧ msgAccurate c.input m) := by
  cases st with
  | header => exact asciiFileHeader_spec c c1 st1 em h
  | facet => exact asciiFacet_spec c c1 st1 em h
  | vertex => exact asciiVertex_spec c c1 st1 em h

/-- Any fatal error present at the end of a run started with no error
recorded is an accurate mismatch message about the run's input. -/
theorem runLex_err_spec :
    ∀ (fuel : Nat) (c : LexCtx) (st : LexState) (c1 : LexCtx) (fs : List Facet),
      runLex fuel c st = .ok (c1, fs) →
      c1.input = c.input ∧
      (c.err = none → ∀ m, c1.err = some m → msgAccurate c.input m) := by
  intro fuel
  induction fuel with
  | zero =>
    intro c st c1 fs h
    simp only [runLex, Except.ok.injEq, Prod.mk.injEq] at h
    obtain ⟨e1, -⟩ := h
    subst e1
    refine ⟨rfl, ?_⟩
    intro hc m hm
    rw [hc] at hm
    simp at hm
  | succ k ih =>
    intro c st c1 fs h
    simp only [runLex] at h
    cases hstep : lexStep c st with
    | error e => rw [hstep] at h; simp at h
    | ok out =>
    obtain ⟨c2, ost, em⟩ := out
    rw [hstep] at h
    have hsp := lexStep_spec c st c2 ost em hstep
    cases ost with
    | none =>
      dsimp only at h
      simp only [Except.ok.injEq, Prod.mk.injEq] at h
      obtain ⟨e1, -⟩ := h
      subst e1
      refine ⟨hsp.1, ?_⟩
      intro hc m hm
      exact (hsp.2 hc m hm).2.2
    | some st2 =>
      dsimp only at h
      cases hrec : runLex k c2 st2 with
      | error e => rw [hrec] at h; simp at h
      | ok p =>
      obtain ⟨c3, fs2⟩ := p
      rw [hrec] at h
      simp only [Except.ok.injEq, Prod.mk.injEq] at h
      obtain ⟨e1, -⟩ := h
      subst e1
      have hih := ih c2 st2 c3 fs2 hrec
      refine ⟨hih.1.trans hsp.1, ?_⟩
      intro hc m hm
      cases hc2 : c2.err with
      | some m2 =>
        have hst := (hsp.2 hc m2 hc2).1
        simp at hst
      | none =>
        have hacc := hih.2 hc2 m hm
        rwa [hsp.1] at hacc

/-- C5 amended: every fatal lexer error the ASCII parse surfaces — a
mismatch at any expected keyword (`facet`, `normal`, `outer`, `loop`,
`vertex`, `endloop`, `endfacet`) or at any expected number, in any
state — terminates the run at that transition and makes the whole parse
fail with exactly that `LexerError`; and the error value is accurate
(`msgAccurate`): it identifies what was expected, carries the current
byte offset, and carries the offending bytes actually found at that
offset (the keyword-length excerpt, which really differs from the
expected keyword; the one-byte excerpt for a number; a gate-rejected
literal for a conversion failure).  The lexer is however not total: with
fewer bytes left than a keyword comparison or an excerpt needs, the
slice is out of range and it crashes instead of erroring (see the
counterexample). -/
theorem c5_amended (bs : List Nat) (c : LexCtx) (fs : List Facet) (m : LexMsg)
    (hrun : asciiRun bs = .ok (c, fs)) (herr : c.err = some m) :
    parseASCII bs = .err (.lexError m) ∧ msgAccurate bs m := by
  constructor
  · unfold parseASCII
    rw [hrun]
    dsimp only
    rw [herr]
  · have hsp := runLex_err_spec (bs.length + 3) (initCtx bs) .header c fs hrun
    exact hsp.2 rfl m herr

/-- C5 amended witness: two mismatch sites.  On `w5aInput` the keyword
`outer` is expected at offset 22 but `outar` is found; on `w5bInput` a
number is expected at offset 16 but `q` is found.  Both parses fail with
exactly those accurate errors. -/
theorem c5_amended_witness :
    (parseASCII w5aInput = .err (.lexError w5aMsg) ∧ msgAccurate w5aInput w5aMsg) ∧
    (parseASCII w5bInput = .err (.lexError w5bMsg) ∧ msgAccurate w5bInput w5bMsg) :=
  ⟨c5_amended w5aInput w5aCtx [] w5aMsg rfl rfl,
   c5_amended w5bInput w5bCtx [] w5bMsg rfl rfl⟩

/-- C6: whenever the state-machine run ends with a fatal error recorded,
`parseASCII` fails with exactly that error wrapped in `LexerError`; the
`.err` result carries no facet list, so every facet emitted before the
error (the `fs` collected by the run) is discarded. -/
theorem c6_error_discards_facets (bs : List Nat) (c : LexCtx)
    (fs : List Facet) (m : LexMsg)
    (hrun : asciiRun bs = .ok (c, fs)) (herr : c.err = some m) :
    parseASCII bs = .err (.lexError m) := by
  unfold parseASCII
  rw [hrun]
  dsimp only
  rw [herr]

/-- C6 witness: on `w6Input` the run emits one complete facet and then
records a missing-`endloop` error; the parse returns the error and no
facets. -/
theorem c6_witness :
    asciiRun w6Input = .ok (w6Ctx, [asciiFacet010]) ∧
    parseASCII w6Input = .err (.lexError w6Msg) :=
  ⟨rfl, c6_error_discards_facets w6Input w6Ctx [asciiFacet010] w6Msg rfl rfl⟩

/-- C9: when the tokenizer (`acceptNumber`) accepts a numeric token but
the captured text fails the float conversion gate, the number routine of
the vertex state reports the conversion error (`badFloat`, Go's "Unable
to parse float from %q") — not the tokenizer's expected-number error. -/
theorem c9_conversion_gate (c0 c1 c2 : LexCtx) (b : Bool) (tok : List Nat)
    (h1 : acceptRun spaces c0 = .ok (c1, b))
    (h2 : acceptNumber c1 = .ok (c2, true))
    (h3 : sliceB c2.input c1.pos c2.pos = .ok tok)
    (h4 : parseFloatOk tok = false) :
    vertexNumber c0 = .ok (.inl (setErr c2 (.badFloat tok))) := by
  unfold vertexNumber
  rw [h1]
  dsimp only
  rw [h2]
  dsimp only
  rw [h3]
  dsimp only
  simp [h4]

/-- C9 witness: the token `1.2.3` matches the permissive grammar
(`acceptNumber` consumes all five bytes) but fails the conversion gate;
the end-to-end parse of `w9Input` fails with exactly the `badFloat`
error. -/
theorem c9_witness :
    vertexNumber w9c0 = .ok (.inl (setErr w9c2 (.badFloat w9Tok))) ∧
    parseASCII w9Input = .err (.lexError (.badFloat w9Tok)) :=
  ⟨c9_conversion_gate w9c0 w9c0 w9c2 false w9Tok rfl rfl rfl rfl, rfl⟩

/-- Any facet emitted by a single state transition is marked valid: the
only emission site is the completion of a facet in the vertex state,
which sets the flag just before emitting. -/
theorem lexStep_emit_valid (c : LexCtx) (st : LexState) (c1 : LexCtx)
    (st1 : Option LexState) (f : Facet)
    (h : lexStep c st = .ok (c1, st1, some f)) : f.valid = true := by
  cases st with
  | header =>
    unfold lexStep asciiFileHeader at h
    repeat' split at h
    all_goals simp_all
  | facet =>
    unfold lexStep asciiFacet at h
    repeat' split at h
    all_goals simp_all
  | vertex =>
    unfold lexStep asciiVertex at h
    repeat' split at h
    all_goals (try simp_all)
    all_goals (obtain ⟨-, -, h3⟩ := h; rw [← h3])

/-- Every facet collected by a run of the state machine is valid. -/
theorem runLex_facets_valid :
    ∀ (fuel : Nat) (c : LexCtx) (st : LexState) (c1 : LexCtx) (fs : List Facet),
      runLex fuel c st = .ok (c1, fs) → ∀ f ∈ fs, f.valid = true := by
  intro fuel
  induction fuel with
  | zero =>
    intro c st c1 fs h f hf
    simp only [runLex, Except.ok.injEq, Prod.mk.injEq] at h
    rw [← h.2] at hf
    simp at hf
  | succ k ih =>
    intro c st c1 fs h f hf
    simp only [runLex] at h
    cases hstep : lexStep c st with
    | error e => rw [hstep] at h; simp at h
    | ok out =>
      obtain ⟨c2, ost, em⟩ := out
      rw [hstep] at h
      cases ost with
      | none =>
        dsimp only at h
        simp only [Except.ok.injEq, Prod.mk.injEq] at h
        rw [← h.2] at hf
        cases em with
        | none => simp at hf
        | some g =>
          simp only [Option.toList_some, List.mem_singleton] at hf
          rw [hf]
          exact lexStep_emit_valid c st c2 none g hstep
      | some st2 =>
        dsimp only at h
        cases hrec : runLex k c2 st2 with
        | error e => rw [hrec] at h; simp at h
        | ok p =>
          obtain ⟨c3, fs2⟩ := p
          rw [hrec] at h
          simp only [Except.ok.injEq, Prod.mk.injEq] at h
          rw [← h.2] at hf
          rcases List.mem_append.mp hf with hf | hf
          · cases em with
            | none => simp at hf
            | some g =>
              simp only [Option.toList_some, List.mem_singleton] at hf
              rw [hf]
              exact lexStep_emit_valid c st c2 (some st2) g hstep
          · exact ih c2 st2 c3 fs2 hrec f hf

/-- Every facet returned by a successful ASCII parse is valid. -/
theorem parseASCII_ok_valid (bs : List Nat) (fs : List Facet)
    (h : parseASCII bs = .ok fs) : ∀ f ∈ fs, f.valid = true := by
  unfold parseASCII at h
  cases hrun : asciiRun bs with
  | error e => rw [hrun] at h; simp at h
  | ok p =>
    obtain ⟨c, fs1⟩ := p
    rw [hrun] at h
    dsimp only at h
    cases herr : c.err with
    | some m => rw [herr] at h; simp at h
    | none =>
      rw [herr] at h
      simp only [PRes.ok.injEq] at h
      rw [← h]
      exact runLex_facets_valid (bs.length + 3) (initCtx bs) .header c fs1 hrun

/-- Every facet returned by a successful binary parse is valid. -/
theorem parseBinary_ok_valid (bs : List Nat) (fs : List Facet)
    (h : parseBinary bs = .ok fs) : ∀ f ∈ fs, f.valid = true := by
  unfold parseBinary at h
  by_cases h80 : bs.length < 80
  · rw [if_pos h80] at h; simp at h
  · rw [if_neg h80] at h
    by_cases h4 : (bs.drop 80).length < 4
    · rw [if_pos h4] at h; simp at h
    · rw [if_neg h4] at h
      cases hr : readF32 (bs.drop 80) with
      | none => rw [hr] at h; simp at h
      | some p =>
        obtain ⟨n, tri⟩ := p
        rw [hr] at h
        exact (parseBinaryLoop_chain n tri vertexZero fs h).1

/-- C8: every facet returned to a caller by `ParseSTLBytes` — through the
ASCII path, the binary path, or the fallback — has its completion flag
set.  (The three vertices and the normal are total fields of `Facet`, so
a returned facet carries all of them by construction; partially built
facets, which exist only as the lexer's pending facet with `valid =
false`, are never part of a returned list.) -/
theorem c8_valid_invariant (bs : List Nat) (fs : List Facet)
    (h : ParseSTLBytes bs = .ok fs) : ∀ f ∈ fs, f.valid = true := by
  unfold ParseSTLBytes at h
  by_cases hlen : bs.length < 5
  · rw [if_pos hlen] at h; simp at h
  · rw [if_neg hlen] at h
    by_cases hsol : bs.take 5 = kwSolid
    · rw [if_pos hsol] at h
      cases hA : parseASCII (bs.drop 5) with
      | panic => rw [hA] at h; simp at h
      | ok fsA =>
        rw [hA] at h
        simp only [PRes.ok.injEq] at h
        rw [← h]
        exact parseASCII_ok_valid (bs.drop 5) fsA hA
      | err e =>
        rw [hA] at h
        dsimp only at h
        cases hB : parseBinary bs with
        | ok fs2 =>
          rw [hB] at h
          simp only [PRes.ok.injEq] at h
          rw [← h]
          exact parseBinary_ok_valid bs fs2 hB
        | error e2 => rw [hB] at h; simp at h
    · rw [if_neg hsol] at h
      cases hB : parseBinary bs with
      | ok fs2 =>
        rw [hB] at h
        simp only [PRes.ok.injEq] at h
        rw [← h]
        exact parseBinary_ok_valid bs fs2 hB
      | error e2 => rw [hB] at h; simp at h

/-- C8 witness: the one-facet ASCII file parses to a facet whose
completion flag the invariant theorem confirms. -/
theorem c8_witness :
    ParseSTLBytes w8Input = .ok [asciiFacet010] ∧ asciiFacet010.valid = true :=
  ⟨rfl, c8_valid_invariant w8Input [asciiFacet010] rfl asciiFacet010
    (List.mem_singleton.mpr rfl)⟩

end Stl
